import Mathlib

set_option maxRecDepth 10000

/-!
Verification development for the wz523/OKX grid-trading bot.

The Python sources (`cfg.py`, `grid_sys.py`, `account.py`, `okx_api.py`,
`risk_sys.py`, `strategy.py`) are shallowly embedded below:

* `Decimal` prices, sizes and timestamps become `ℚ` (the bot's Decimal
  context has 28 digits of precision and never overflows on the magnitudes
  it handles, so exact rational arithmetic is a faithful model);
* Python dicts keyed by prices become unique-key association lists with
  `alookup` / `aset` / `aerase` (dict iteration order is only used to
  collect a set of keys in the source, so list order never matters);
* exchange I/O (`fetch_open_orders`, `fetch_positions`, `refresh_mid`,
  signal functions) becomes explicit inputs; a request that fails after
  the retry loop of `okx_api._req` returns an empty payload `{}` in the
  source, which is modeled by the `none` case of `reqData`;
* order placement becomes an emitted `OrderIntent`; order cancellation
  becomes an emitted `CancelAct`.
-/

namespace OKX

/-- Order side, the `"buy"` / `"sell"` strings of the source. -/
inductive Side where
  | buy
  | sell
  deriving DecidableEq, Repr

/-- Position side, the `"long"` / `"short"` strings of the source. -/
inductive PosSide where
  | long
  | short
  deriving DecidableEq, Repr

/-- `okx_api._posSide_from_side`: buy → long, sell → short. -/
def posSideFromSide (side : Side) : PosSide :=
  if side = Side.buy then PosSide.long else PosSide.short

/-- Python `Decimal.to_integral_value(rounding=ROUND_DOWN)`: truncation toward zero. -/
def decRoundDown (q : ℚ) : ℤ := if 0 ≤ q then ⌊q⌋ else ⌈q⌉

/-- Python `Decimal.to_integral_value(rounding=ROUND_UP)`: rounding away from zero. -/
def decRoundUp (q : ℚ) : ℤ := if 0 ≤ q then ⌈q⌉ else ⌊q⌋

/-- `cfg.round_price`: quantize to the tick, down for buys and up for sells. -/
def round_price (price tickSz : ℚ) (side : Side) : ℚ :=
  if side = Side.buy then (decRoundDown (price / tickSz) : ℚ) * tickSz
  else (decRoundUp (price / tickSz) : ℚ) * tickSz

/-- `cfg.align_size`: raise to `minSz` if below it, then round up to a lot multiple. -/
def align_size (size lotSz minSz : ℚ) : ℚ :=
  let size2 := if size < minSz then minSz else size
  (decRoundUp (size2 / lotSz) : ℚ) * lotSz

/-- The slice of `cfg` and of the instrument spec that the price path reads:
`mkt.spec["tickSz"]`, `cfg.MAKER_OFFSET_TICKS`, `cfg.POST_ONLY`. -/
structure MkCfg where
  tick : ℚ
  offsetTicks : ℤ
  postOnly : Bool
  deriving DecidableEq, Repr

/-- `Grid._effective_limit_px`: apply the maker offset (tick × offset ticks,
down for buys / up for sells, clamped to one tick if nonpositive) when
`POST_ONLY` and the offset is positive, then always round to the tick. -/
def effectiveLimitPx (c : MkCfg) (side : Side) (px : ℚ) : ℚ :=
  let pxAdj :=
    if c.postOnly = true ∧ 0 < c.offsetTicks then
      let delta := c.tick * (c.offsetTicks : ℚ)
      let p := if side = Side.buy then px - delta else px + delta
      if p ≤ 0 then c.tick else p
    else px
  round_price pxAdj c.tick side

/-- The limit-price path of `Account.place_order`: when `POST_ONLY` and the
offset is positive it applies the maker offset and rounds to the tick;
otherwise it forwards the price unchanged (no rounding in that branch). -/
def accountOrderPx (c : MkCfg) (side : Side) (px : ℚ) : ℚ :=
  if c.postOnly = true ∧ 0 < c.offsetTicks then
    let delta := c.tick * (c.offsetTicks : ℚ)
    let p := if side = Side.buy then px - delta else px + delta
    let p2 := if p ≤ 0 then c.tick else p
    round_price p2 c.tick side
  else px

/-- An order submission produced by the engine (arguments of
`place_limit` / `place_market`; `px = none` is a market order). -/
structure OrderIntent where
  side : Side
  posSide : PosSide
  px : Option ℚ
  sz : ℚ
  reduceOnly : Bool
  tag : String
  deriving DecidableEq, Repr

/-- `Grid._post_one`: align the size to lot/min, drop the intent if the
aligned size is nonpositive, otherwise place a GRID limit order through
`Account.place_order` at `_effective_limit_px(side, px)` — which
`place_order` then offsets again on its own. -/
def postOne (c : MkCfg) (lot minSz : ℚ) (side : Side) (px sz : ℚ) : Option OrderIntent :=
  let szAligned := align_size sz lot minSz
  if szAligned ≤ 0 then none
  else some { side := side
            , posSide := posSideFromSide side
            , px := some (accountOrderPx c side (effectiveLimitPx c side px))
            , sz := szAligned
            , reduceOnly := false
            , tag := "GRID" }

/-! ### Python dicts as unique-key association lists -/

/-- Lookup in an association list (`dict.get`). -/
def alookup {α : Type} : List (ℚ × α) → ℚ → Option α
  | [], _ => none
  | e :: t, k => if e.1 = k then some e.2 else alookup t k

/-- Key removal (`dict.pop(k, None)`); removes every entry with the key, which
coincides with removing the single entry on the unique-key lists a dict denotes. -/
def aerase {α : Type} : List (ℚ × α) → ℚ → List (ℚ × α)
  | [], _ => []
  | e :: t, k => if e.1 = k then aerase t k else e :: aerase t k

/-- Key assignment (`dict[k] = v`). -/
def aset {α : Type} (m : List (ℚ × α)) (k : ℚ) (v : α) : List (ℚ × α) :=
  (k, v) :: aerase m k

/-- Erasing a batch of keys (used by the far-away reset). -/
def aeraseAll {α : Type} (m : List (ℚ × α)) (ks : List ℚ) : List (ℚ × α) :=
  ks.foldl (fun acc k => aerase acc k) m

/-! ### Sorting helpers (`sorted(...)` in the source) -/

/-- Insertion into an ascending list of prices. -/
def insertAsc (x : ℚ) : List ℚ → List ℚ
  | [] => [x]
  | y :: t => if x ≤ y then x :: y :: t else y :: insertAsc x t

/-- `sorted(...)` over a list of prices. -/
def sortAsc (l : List ℚ) : List ℚ := l.foldr insertAsc []

/-- Stable insertion of a `(price, size)` level by price. -/
def insertByFst (x : ℚ × ℚ) : List (ℚ × ℚ) → List (ℚ × ℚ)
  | [] => [x]
  | y :: t => if x.1 < y.1 then x :: y :: t else y :: insertByFst x t

/-- `sorted(levels, key=lambda x: x[0])`. -/
def sortByFst (l : List (ℚ × ℚ)) : List (ℚ × ℚ) := l.foldr insertByFst []

/-! ### Open-orders query and the live GRID price set
(`okx_api._req`, `fetch_open_orders`, `Account.live_grid_prices`) -/

/-- One entry of the exchange's pending-order list, as read by
`Account.live_grid_prices`. -/
structure OpenOrder where
  tag : String
  clOrdId : String
  px : ℚ
  deriving DecidableEq, Repr

/-- Does `pat` occur at the start of `l`? -/
def seqStartsWith : List Char → List Char → Bool
  | [], _ => true
  | _ :: _, [] => false
  | a :: as, b :: bs => a = b && seqStartsWith as bs

/-- Does `pat` occur contiguously inside `l`? (Python `in` on strings.) -/
def containsSeq (pat : List Char) : List Char → Bool
  | [] => pat.isEmpty
  | c :: rest => seqStartsWith pat (c :: rest) || containsSeq pat rest

/-- The tag recognition of `Account.live_grid_prices`:
`"GRID" in (o.get("tag") or o.get("clOrdId") or "").upper()`. -/
def hasGridTag (o : OpenOrder) : Bool :=
  let s := if o.tag ≠ "" then o.tag else o.clOrdId
  containsSeq "GRID".data (s.data.map Char.toUpper)

/-- `okx_api._req`'s result as seen by `fetch_open_orders`: after three
failed attempts `_req` swallows the error and returns `{}`, so
`jd.get("data", [])` yields the empty list. `none` models that failure. -/
def reqData {α : Type} : Option (List α) → List α
  | none => []
  | some l => l

/-- `Account.live_grid_prices` over an open-orders query result. -/
def liveGridPrices (resp : Option (List OpenOrder)) : List ℚ :=
  (reqData resp).filterMap fun o => if hasGridTag o then some o.px else none

/-! ### Grid state and the self-repair pass (`grid_sys.Grid`) -/

/-- The mutable state of `Grid` (plus the per-side pause flags that live on
`Account` in the source but are read only by the grid scan and the DCA
window). Level lists hold `(raw_px, size)` pairs; `missingSince` maps an
effective price to its first-missing timestamp; `repostCount` maps an
effective price to `(window_start, count)`. -/
structure GridState where
  gridStep : ℚ
  ttlSec : ℚ
  repostMax : ℕ
  farSteps : ℕ
  buyLv : List (ℚ × ℚ)
  sellLv : List (ℚ × ℚ)
  missingSince : List (ℚ × ℚ)
  repostCount : List (ℚ × (ℚ × ℕ))
  lastPosLong : ℚ
  lastPosShort : ℚ
  lastFlatTsLong : ℚ
  lastFlatTsShort : ℚ
  pauseLong : Bool
  pauseShort : Bool
  deriving DecidableEq, Repr

/-- `Grid._update_flat_edges`: `posInput = none` models the positions query
raising (the source returns early); otherwise record the has-position →
flat transition timestamps per side. -/
def updateFlatEdges (st : GridState) (posInput : Option (ℚ × ℚ)) (nowTs : ℚ) : GridState :=
  match posInput with
  | none => st
  | some cur =>
    { st with
      lastFlatTsLong := if 0 < st.lastPosLong ∧ cur.1 ≤ 0 then nowTs else st.lastFlatTsLong
      lastFlatTsShort := if 0 < st.lastPosShort ∧ cur.2 ≤ 0 then nowTs else st.lastFlatTsShort
      lastPosLong := cur.1
      lastPosShort := cur.2 }

/-- The far condition of `Grid._faraway_reset_if_needed`:
`abs((now_px - px_cmp) / grid_step) >= far_steps`. The source raises on a
zero grid step (Decimal division by zero, uncaught); all theorems below
either use a positive step or assume one. -/
def farCond (gridStep : ℚ) (farSteps : ℕ) (nowPx k : ℚ) : Bool :=
  decide ((farSteps : ℚ) ≤ |(nowPx - k) / gridStep|)

/-- `Grid._faraway_reset_if_needed`: collect the repost-count keys that are
at least `farSteps` grid steps from the current price, then pop each from
both the repost-count and the missing-since maps. -/
def farawayReset (st : GridState) (nowPx : ℚ) : GridState :=
  let toClear := st.repostCount.filterMap
    (fun e => if farCond st.gridStep st.farSteps nowPx e.1 then some e.1 else none)
  { st with repostCount := aeraseAll st.repostCount toClear
          , missingSince := aeraseAll st.missingSince toClear }

/-- `Grid._window_ok_and_inc`: read `(window_start, count)` (default
`(now, 0)`), open a fresh window if the old one is at least `ttl` old,
refuse if the count has reached `repost_max`, otherwise store the
incremented count and accept. -/
def windowOkAndInc (rc : List (ℚ × (ℚ × ℕ))) (p : ℚ) (nowTs ttl : ℚ) (repostMax : ℕ) :
    List (ℚ × (ℚ × ℕ)) × Bool :=
  let wc := (alookup rc p).getD (nowTs, 0)
  let wc2 := if ttl ≤ nowTs - wc.1 then (nowTs, 0) else wc
  if repostMax ≤ wc2.2 then (rc, false)
  else (aset rc p (wc2.1, wc2.2 + 1), true)

/-- The capacity test of `_window_ok_and_inc` without the increment (used
only to state theorems; it mirrors the accept/refuse decision exactly). -/
def windowHasCapacity (rc : List (ℚ × (ℚ × ℕ))) (p : ℚ) (nowTs ttl : ℚ) (repostMax : ℕ) :
    Bool :=
  let wc := (alookup rc p).getD (nowTs, 0)
  let wc2 := if ttl ≤ nowTs - wc.1 then (nowTs, 0) else wc
  decide (wc2.2 < repostMax)

/-- First index of a price in a list (`list.index`, `none` for the
`ValueError` branch). -/
def idxOf : List ℚ → ℚ → Option ℕ
  | [], _ => none
  | x :: t, p => if x = p then some 0 else (idxOf t p).map (· + 1)

/-- `Grid._neighbors_missing`: true when an adjacent entry of the unified
ascending ladder is absent from the live set. -/
def neighborsMissing (ladder live : List ℚ) (p : ℚ) : Bool :=
  match idxOf ladder p with
  | none => false
  | some i =>
    let left :=
      match i, ladder.get? (i - 1) with
      | 0, _ => false
      | _ + 1, some q => decide (q ∉ live)
      | _ + 1, none => false
    let right :=
      match ladder.get? (i + 1) with
      | some q => decide (q ∉ live)
      | none => false
    left || right

/-- `Grid._full_ladder`: effective prices of both sides, deduplicated and
sorted ascending. -/
def fullLadder (c : MkCfg) (st : GridState) : List ℚ :=
  sortAsc ((((sortByFst st.buyLv).map fun lv => effectiveLimitPx c Side.buy lv.1) ++
            ((sortByFst st.sellLv).map fun lv => effectiveLimitPx c Side.sell lv.1)).dedup)

/-- Accumulator threaded through the per-level scans of `place_missing`. -/
structure PMAcc where
  ms : List (ℚ × ℚ)
  rc : List (ℚ × (ℚ × ℕ))
  orders : List OrderIntent
  deriving DecidableEq, Repr

/-- The body of `Grid._rearm_side_all_missing` for one level: skip live
levels; otherwise post unconditionally and clear the missing timer. -/
def rearmLevel (c : MkCfg) (lot minSz : ℚ) (live : List ℚ) (side : Side)
    (acc : List (ℚ × ℚ) × List OrderIntent) (lv : ℚ × ℚ) :
    List (ℚ × ℚ) × List OrderIntent :=
  let pxCmp := effectiveLimitPx c side lv.1
  if pxCmp ∈ live then acc
  else
    match postOne c lot minSz side lv.1 lv.2 with
    | none => acc
    | some o => (aerase acc.1 pxCmp, acc.2 ++ [o])

/-- `Grid._rearm_side_all_missing`. -/
def rearmSideAllMissing (c : MkCfg) (lot minSz : ℚ) (live : List ℚ) (side : Side)
    (lv : List (ℚ × ℚ)) (ms : List (ℚ × ℚ)) : List (ℚ × ℚ) × List OrderIntent :=
  lv.foldl (rearmLevel c lot minSz live side) (ms, [])

/-- The first-missing bookkeeping of `place_missing`:
`first_ts = _missing_since.get(px_cmp); if not first_ts: ... = now_ts`
(the Python truthiness test also treats a stored `0` as absent). Returns
the updated map and the first-missing timestamp used by the TTL test. -/
def recordFirstMissing (ms : List (ℚ × ℚ)) (k nowTs : ℚ) : List (ℚ × ℚ) × ℚ :=
  match alookup ms k with
  | none => (aset ms k nowTs, nowTs)
  | some t => if t = 0 then (aset ms k nowTs, nowTs) else (ms, t)

/-- One level of the `handle_side` closure inside `Grid.place_missing`:
clear the timer of live levels; skip a paused side (before the timer
bookkeeping); record the first-missing timestamp; gate on
neighbor-missing or TTL, then on the repost window; finally post. -/
def handleLevel (c : MkCfg) (lot minSz : ℚ) (live ladder : List ℚ) (paused : Bool)
    (nowTs ttl : ℚ) (repostMax : ℕ) (side : Side) (acc : PMAcc) (lv : ℚ × ℚ) : PMAcc :=
  let pxCmp := effectiveLimitPx c side lv.1
  if pxCmp ∈ live then { acc with ms := aerase acc.ms pxCmp }
  else if paused = true then acc
  else
    let msFirst := recordFirstMissing acc.ms pxCmp nowTs
    let allowByNeighbor := neighborsMissing ladder live pxCmp
    let allowByTtl := decide (ttl ≤ nowTs - msFirst.2)
    if allowByNeighbor = false ∧ allowByTtl = false then { acc with ms := msFirst.1 }
    else
      let wr := windowOkAndInc acc.rc pxCmp nowTs ttl repostMax
      if wr.2 = true then
        match postOne c lot minSz side lv.1 lv.2 with
        | none => { ms := msFirst.1, rc := wr.1, orders := acc.orders }
        | some o => { ms := msFirst.1, rc := wr.1, orders := acc.orders ++ [o] }
      else { ms := msFirst.1, rc := wr.1, orders := acc.orders }

/-- The `handle_side` scan of `Grid.place_missing` over a (sorted) level
list. -/
def scanSide (c : MkCfg) (lot minSz : ℚ) (live ladder : List ℚ) (paused : Bool)
    (nowTs ttl : ℚ) (repostMax : ℕ) (side : Side) (acc : PMAcc)
    (levels : List (ℚ × ℚ)) : PMAcc :=
  levels.foldl (handleLevel c lot minSz live ladder paused nowTs ttl repostMax side) acc

/-- `Grid.place_missing`. Inputs are the fresh external reads of the pass:
`live` (the effective prices of live GRID orders), `nowTs` (`time.time()`),
`nowPx` (`mkt.refresh_mid()`), `posInput` (the positions query used by the
flat-edge detection). Order submission itself is modeled as always
succeeding. Returns the new state and the submitted orders in
chronological order. -/
def placeMissing (c : MkCfg) (lot minSz : ℚ) (st0 : GridState)
    (nowTs nowPx : ℚ) (live : List ℚ) (posInput : Option (ℚ × ℚ)) :
    GridState × List OrderIntent :=
  let st1 := updateFlatEdges st0 posInput nowTs
  let rearmL :=
    if st1.lastFlatTsLong ≠ 0 ∧ nowTs - st1.lastFlatTsLong ≤ 60 then
      rearmSideAllMissing c lot minSz live Side.buy st1.buyLv st1.missingSince
    else (st1.missingSince, [])
  let rearmS :=
    if st1.lastFlatTsShort ≠ 0 ∧ nowTs - st1.lastFlatTsShort ≤ 60 then
      rearmSideAllMissing c lot minSz live Side.sell st1.sellLv rearmL.1
    else (rearmL.1, [])
  let st2 := farawayReset { st1 with missingSince := rearmS.1 } nowPx
  let ladder := fullLadder c st2
  let acc0 : PMAcc := { ms := st2.missingSince, rc := st2.repostCount
                      , orders := rearmL.2 ++ rearmS.2 }
  let acc1 := scanSide c lot minSz live ladder st2.pauseLong nowTs st2.ttlSec
      st2.repostMax Side.buy acc0 (sortByFst st2.buyLv)
  let acc2 := scanSide c lot minSz live ladder st2.pauseShort nowTs st2.ttlSec
      st2.repostMax Side.sell acc1 (sortByFst st2.sellLv)
  ({ st2 with missingSince := acc2.ms, repostCount := acc2.rc }, acc2.orders)

/-! ### Risk guards (`risk_sys.MarginGuard`, `Strategy._liqpx_guard_check`) -/

/-- A cancellation request: `cancel_orders_by_tag` (`posSide = none`) or
`cancel_orders_by_tag_and_side` (`posSide = some s`). -/
structure CancelAct where
  tag : String
  posSide : Option PosSide
  deriving DecidableEq, Repr

/-- The tag list canceled by both guards: `["GRID", "DCA", "ADD"]`. -/
def riskTags : List String := ["GRID", "DCA", "ADD"]

/-- The shared guard state: `MarginGuard.paused` (one flag consumed by every
non-grid order path), `Strategy._liq_paused`, and the margin guard's
throttle timestamp and last ratio. -/
structure RiskSt where
  paused : Bool
  liqPaused : Bool
  lastTs : ℚ
  lastRatio : Option ℚ
  deriving DecidableEq, Repr

/-- `MarginGuard.refresh`: throttled to one check per
`max(1, MARGIN_CHECK_SEC)` seconds; at or below the stop threshold it sets
`paused` and cancels the risk tags on every (non-throttled) call; at or
above the resume threshold it clears `paused`. -/
def marginRefresh (checkSec : ℤ) (stopTh resumeTh : ℚ) (st : RiskSt) (now ratio : ℚ) :
    RiskSt × List CancelAct :=
  if now - st.lastTs < ((max 1 checkSec : ℤ) : ℚ) then (st, [])
  else
    let st2 := { st with lastTs := now, lastRatio := some ratio }
    if ratio ≤ stopTh then
      ({ st2 with paused := true }, riskTags.map fun t => CancelAct.mk t none)
    else if st2.paused = true ∧ resumeTh ≤ ratio then
      ({ st2 with paused := false }, [])
    else (st2, [])

/-- One side of a `Account.get_positions` snapshot. -/
structure PosInfo where
  pos : ℚ
  avgPx : ℚ
  liqPx : ℚ
  uPnl : ℚ
  deriving DecidableEq, Repr

/-- The `_dist` helper of `Strategy._liqpx_guard_check`: `none` when there
is no current price, no liquidation price (the snapshot's `0` stands for
the exchange's empty value) or no positive position. -/
def liqDist (pxNow : Option ℚ) (d : PosInfo) : Option ℚ :=
  match pxNow with
  | none => none
  | some px => if d.liqPx = 0 ∨ d.pos ≤ 0 then none else some |px - d.liqPx|

/-- `_dist(...) or None`: Python truthiness turns a zero distance into
`None` as well. -/
def liqDistOrNone (pxNow : Option ℚ) (d : PosInfo) : Option ℚ :=
  match liqDist pxNow d with
  | none => none
  | some v => if v = 0 then none else some v

/-- `Strategy._liqpx_guard_check`. `pxNow` is the outcome of the guarded
price read: in the source the expression is `mkt.refresh_mid()()`, which
calls the float returned by `refresh_mid` and therefore always raises
`TypeError`, caught into `px_now = None` — so the deployed value is always
`none`; the model keeps it as an input so the guard's transition logic is
stated for every value. The cancellation sweep reuses the same positions
snapshot (the source re-fetches it for the losing-side sweep). -/
def liqCheck (liqStop liqResume : ℚ) (st : RiskSt) (pxNow : Option ℚ)
    (posL posS : PosInfo) : RiskSt × List CancelAct :=
  let dL := liqDistOrNone pxNow posL
  let dS := liqDistOrNone pxNow posS
  let close : Option ℚ → Bool := fun d =>
    match d with
    | some v => decide (v ≤ liqStop)
    | none => false
  let safe1 : Option ℚ → Bool := fun d =>
    match d with
    | some v => decide (liqResume ≤ v)
    | none => true
  let tooClose := close dL || close dS
  let liqSafe := safe1 dL && safe1 dS
  if tooClose = true then
    if st.liqPaused = true then (st, [])
    else
      let losers : List PosSide :=
        (if 0 < posL.pos ∧ posL.uPnl < 0 then [PosSide.long] else []) ++
        (if 0 < posS.pos ∧ posS.uPnl < 0 then [PosSide.short] else [])
      let cancels := (riskTags.map fun t => CancelAct.mk t none) ++
        losers.flatMap fun s => riskTags.map fun t => CancelAct.mk t (some s)
      ({ st with liqPaused := true, paused := true }, cancels)
  else if st.liqPaused = true ∧ liqSafe = true then
    let st2 := { st with liqPaused := false }
    if st2.paused = true then ({ st2 with paused := false }, []) else (st2, [])
  else (st, [])

/-! ### DCA window (`Strategy._dca_if_needed`) -/

/-- The slice of `cfg` read by the DCA window. -/
structure DcaCfg where
  enable : Bool
  minPct : ℚ
  maxPct : ℚ
  cap : ℕ
  deriving DecidableEq, Repr

/-- Per-side external reads of one `_dca_if_needed` call: the two
positions fetches' average price (`0` is the exchange's empty value, the
source falls back to the current price on it), the
`dca_reverse_signal` outcome, and the outcome of `_notional_to_lots`.
`_notional_to_lots` evaluates `mkt.refresh_mid()()`, which calls a float
and raises `TypeError` in the deployed source, so its real outcome is
always `Except.error ()`; the model keeps it as an input and the theorems
quantify over it. -/
structure DcaSideIn where
  avg1 : ℚ
  avg2 : ℚ
  sig : Bool
  lots : Except Unit ℚ
  deriving Repr

/-- Per-side DCA state (`in_dca_*`, `dca_used_*`, `acc.pause_*`,
`acc.first_entry_px_*`). -/
structure DcaState where
  inLong : Bool
  inShort : Bool
  usedLong : ℕ
  usedShort : ℕ
  pauseLong : Bool
  pauseShort : Bool
  firstEntryLong : Option ℚ
  firstEntryShort : Option ℚ
  deriving DecidableEq, Repr

/-- The reference price of `Strategy._loss_pct`:
`getattr(acc, "first_entry_px_side", None) or avgPx` (a stored `0` is
falsy and also falls back to the average price). -/
def lossRef (firstEntry : Option ℚ) (avgPx : ℚ) : ℚ :=
  match firstEntry with
  | none => avgPx
  | some r => if r = 0 then avgPx else r

/-- `Strategy._loss_pct`. -/
def lossPct (side : PosSide) (px avgPx : ℚ) (firstEntry : Option ℚ) : ℚ :=
  let ref := lossRef firstEntry avgPx
  if ref ≤ 0 then 0
  else if side = PosSide.long then (ref - px) / ref else (px - ref) / ref

/-- Result of processing one side inside `_dca_if_needed`; `crashed` is the
uncaught `TypeError` escaping from `_notional_to_lots`, which aborts the
rest of the call while keeping the mutations already made. -/
structure DcaSideRes where
  inFlag : Bool
  used : ℕ
  pause : Bool
  orders : List OrderIntent
  cancels : List CancelAct
  crashed : Bool
  deriving Repr

/-- Did `_notional_to_lots` raise? (In the deployed source: always.) -/
def lotsCrashed : Except Unit ℚ → Bool
  | Except.error _ => true
  | Except.ok _ => false

/-- The lots value when `_notional_to_lots` returned. -/
def lotsVal : Except Unit ℚ → ℚ
  | Except.error _ => 0
  | Except.ok v => v

/-- One side of the `for side in ("long", "short")` loop of
`Strategy._dca_if_needed`: enter the window when the loss is inside
`[DCA_MIN_PCT, DCA_MAX_PCT]` (pause the side, cancel its grid orders,
`continue`); inside the window, a reverse signal with a free slot attempts
an add — the `_notional_to_lots` call either raises (aborting the whole
call) or yields the lots, and a positive lots size with the guard not
paused places one DCA order and consumes a slot — and then the window-exit
test runs (price back at or through the second fetch's average entry),
clearing the flag, the pause and the slot counter. -/
def dcaSideStep (cfg : DcaCfg) (guardPaused : Bool) (px : ℚ) (side : PosSide)
    (inp : DcaSideIn) (inFlag : Bool) (used : ℕ) (pause : Bool)
    (firstEntry : Option ℚ) : DcaSideRes :=
  let avgPx := if inp.avg1 = 0 then px else inp.avg1
  let loss := lossPct side px avgPx firstEntry
  if inFlag = false ∧ cfg.minPct ≤ loss ∧ loss ≤ cfg.maxPct then
    { inFlag := true, used := used, pause := true, orders := []
    , cancels := [CancelAct.mk "GRID" (some side)], crashed := false }
  else if inFlag = true then
    let attempt := decide (used < cfg.cap) && inp.sig
    if attempt = true ∧ lotsCrashed inp.lots = true then
      -- `_notional_to_lots` raises before any mutation of this side
      { inFlag := inFlag, used := used, pause := pause, orders := []
      , cancels := [], crashed := true }
    else
      let added :=
        if attempt = true ∧ 0 < lotsVal inp.lots ∧ guardPaused = false then
          (used + 1,
           [OrderIntent.mk (if side = PosSide.long then Side.buy else Side.sell)
              side none (lotsVal inp.lots) false "DCA"])
        else (used, [])
      let avg2 := if inp.avg2 = 0 then px else inp.avg2
      let exitCond := if side = PosSide.long then avg2 ≤ px else px ≤ avg2
      if exitCond then
        { inFlag := false, used := 0, pause := false, orders := added.2
        , cancels := [], crashed := false }
      else
        { inFlag := true, used := added.1, pause := pause, orders := added.2
        , cancels := [], crashed := false }
  else
    { inFlag := inFlag, used := used, pause := pause, orders := []
    , cancels := [], crashed := false }

/-- `Strategy._dca_if_needed`: skip when disabled or when the risk guard is
paused; otherwise process the long side then the short side (an uncaught
`TypeError` from the long side's add attempt skips the short side). `px`
is the outcome of the guarded price read at the top of the function
(whose deployed value is always `0`, since `refresh_mid()()` raises and
the `except` branch assigns `Decimal("0")`). -/
def dcaStep (cfg : DcaCfg) (guardPaused : Bool) (st : DcaState) (px : ℚ)
    (inL inS : DcaSideIn) : DcaState × List OrderIntent :=
  if cfg.enable = false then (st, [])
  else if guardPaused = true then (st, [])
  else
    let rL := dcaSideStep cfg guardPaused px PosSide.long inL
        st.inLong st.usedLong st.pauseLong st.firstEntryLong
    let st1 := { st with inLong := rL.inFlag, usedLong := rL.used, pauseLong := rL.pause }
    if rL.crashed = true then (st1, rL.orders)
    else
      let rS := dcaSideStep cfg guardPaused px PosSide.short inS
          st.inShort st.usedShort st.pauseShort st.firstEntryShort
      let st2 := { st1 with inShort := rS.inFlag, usedShort := rS.used
                          , pauseShort := rS.pause }
      (st2, rL.orders ++ rS.orders)

/-- One tick's inputs to `_dca_if_needed`. -/
structure DcaTick where
  guardPaused : Bool
  px : ℚ
  long : DcaSideIn
  short : DcaSideIn
  deriving Repr

/-- A sequence of `_dca_if_needed` calls. -/
def dcaRun (cfg : DcaCfg) : DcaState → List DcaTick → DcaState × List OrderIntent
  | st, [] => (st, [])
  | st, tk :: rest =>
    let r := dcaStep cfg tk.guardPaused st tk.px tk.long tk.short
    let rr := dcaRun cfg r.1 rest
    (rr.1, r.2 ++ rr.2)

/-- The long-side window-exit condition of `_dca_if_needed`
(`px >= avgPx2`, where an empty second-fetch average falls back to `px`
and therefore also exits). -/
def dcaExitLong (px : ℚ) (i : DcaSideIn) : Prop :=
  (if i.avg2 = 0 then px else i.avg2) ≤ px

instance (px : ℚ) (i : DcaSideIn) : Decidable (dcaExitLong px i) := by
  unfold dcaExitLong
  infer_instance

/-- The long-side DCA adds among a list of submitted orders. -/
def dcaLongOrders (l : List OrderIntent) : List OrderIntent :=
  l.filter fun o => decide (o.tag = "DCA") && decide (o.posSide = PosSide.long)

/-! ### Take-profit trailing (`Strategy._manage_take_profit`) -/

/-- The slice of `cfg` and of the instrument spec read by the take-profit
manager. -/
structure TpCfg where
  baseUsd : ℚ
  partialRatio : ℚ
  trailUsd : ℚ
  trailPct : ℚ
  lot : ℚ
  minSz : ℚ
  deriving DecidableEq, Repr

/-- Per-side take-profit state (`acc.partial_done_*`, `acc.trail_active_*`,
`acc.trail_peak_upl_*`) plus the per-side trend-add counter
(`strategy.trend_open_*`) that a full close resets. -/
structure TpState where
  partialDoneLong : Bool
  partialDoneShort : Bool
  trailActiveLong : Bool
  trailActiveShort : Bool
  trailPeakLong : ℚ
  trailPeakShort : ℚ
  trendOpenLong : ℕ
  trendOpenShort : ℕ
  deriving DecidableEq, Repr

/-- An effect of the take-profit manager: a reduce-only market order or the
`close_position` fallback for remainders below the minimum size. -/
inductive TpEvent where
  | order (o : OrderIntent)
  | closePos (s : PosSide)
  deriving DecidableEq, Repr

/-- Result of one side of the take-profit loop. -/
structure TpSideRes where
  partialDone : Bool
  trailActive : Bool
  peak : ℚ
  trendOpen : ℕ
  events : List TpEvent
  deriving Repr

/-- The closing order side: `"sell" if side == "long" else "buy"`. -/
def closeSide (side : PosSide) : Side :=
  if side = PosSide.long then Side.sell else Side.buy

/-- One side of the `for side in ("long", "short")` loop of
`Strategy._manage_take_profit`: reset the state on a flat side; maintain
the peak; below, the first branch is the initial take-profit (full close
without trend, partial close with trend), the second the trailing close. -/
def tpSide (cfg : TpCfg) (side : PosSide) (qty upl : ℚ) (hasTrend : Bool)
    (partialDone trailActive : Bool) (peak0 : ℚ) (trendOpen : ℕ) : TpSideRes :=
  if qty ≤ 0 then
    { partialDone := false, trailActive := false, peak := 0
    , trendOpen := trendOpen, events := [] }
  else
    let peak := if peak0 < upl then upl else peak0
    if partialDone = false ∧ cfg.baseUsd ≤ upl then
      if hasTrend = false then
        -- close the whole position
        let sz := (decRoundDown (qty / cfg.lot) : ℚ) * cfg.lot
        let fallback := decide (sz < cfg.minSz)
        let sz2 := if sz < cfg.minSz then 0 else sz
        { partialDone := partialDone, trailActive := trailActive, peak := peak
        , trendOpen := if 0 < sz2 then 0 else trendOpen
        , events :=
            (if fallback = true then [TpEvent.closePos side] else []) ++
            (if 0 < sz2 then
              [TpEvent.order (OrderIntent.mk (closeSide side) side none sz2 true "TP")]
             else []) }
      else
        -- partial close, arm trailing, peak := current PnL
        let part := (decRoundDown (qty * cfg.partialRatio / cfg.lot) : ℚ) * cfg.lot
        let part2 := if part < cfg.minSz then 0 else part
        if 0 < part2 then
          { partialDone := true, trailActive := true, peak := upl
          , trendOpen := trendOpen
          , events :=
              [TpEvent.order (OrderIntent.mk (closeSide side) side none part2 true "TP")] }
        else
          { partialDone := partialDone, trailActive := trailActive, peak := peak
          , trendOpen := trendOpen, events := [] }
    else if trailActive = true then
      let dd := peak - upl
      let ddPct := if 0 < peak then dd / peak else 0
      if cfg.trailUsd ≤ dd ∨ cfg.trailPct ≤ ddPct then
        let sz := (decRoundDown (qty / cfg.lot) : ℚ) * cfg.lot
        let fallback := decide (sz < cfg.minSz)
        let sz2 := if sz < cfg.minSz then 0 else sz
        if 0 < sz2 then
          { partialDone := false, trailActive := false, peak := 0
          , trendOpen := 0
          , events :=
              (if fallback = true then [TpEvent.closePos side] else []) ++
              [TpEvent.order (OrderIntent.mk (closeSide side) side none sz2 true "TP")] }
        else
          { partialDone := partialDone, trailActive := trailActive, peak := peak
          , trendOpen := trendOpen
          , events := if fallback = true then [TpEvent.closePos side] else [] }
      else
        { partialDone := partialDone, trailActive := trailActive, peak := peak
        , trendOpen := trendOpen, events := [] }
    else
      { partialDone := partialDone, trailActive := trailActive, peak := peak
      , trendOpen := trendOpen, events := [] }

/-- One tick's external reads of `_manage_take_profit`: the positions
snapshot and the resonance signal. -/
structure TpIn where
  qtyL : ℚ
  uplL : ℚ
  qtyS : ℚ
  uplS : ℚ
  bull : Bool
  bear : Bool
  deriving Repr

/-- `Strategy._manage_take_profit`: long side then short side. -/
def tpStep (cfg : TpCfg) (st : TpState) (inp : TpIn) : TpState × List TpEvent :=
  let rL := tpSide cfg PosSide.long inp.qtyL inp.uplL inp.bull
    st.partialDoneLong st.trailActiveLong st.trailPeakLong st.trendOpenLong
  let rS := tpSide cfg PosSide.short inp.qtyS inp.uplS inp.bear
    st.partialDoneShort st.trailActiveShort st.trailPeakShort st.trendOpenShort
  ({ partialDoneLong := rL.partialDone, partialDoneShort := rS.partialDone
   , trailActiveLong := rL.trailActive, trailActiveShort := rS.trailActive
   , trailPeakLong := rL.peak, trailPeakShort := rS.peak
   , trendOpenLong := rL.trendOpen, trendOpenShort := rS.trendOpen },
   rL.events ++ rS.events)

/-- A sequence of `_manage_take_profit` calls, keeping each call's emitted
events separately. -/
def tpRun (cfg : TpCfg) : TpState → List TpIn → TpState × List (List TpEvent)
  | st, [] => (st, [])
  | st, i :: rest =>
    let r := tpStep cfg st i
    let rr := tpRun cfg r.1 rest
    (rr.1, r.2 :: rr.2)

/-! ### Remaining definitions used only to state theorems -/

/-- A sequence of `_window_ok_and_inc` calls for one price level at the
given timestamps, returning the final map and the number of accepted
(incremented) calls. -/
def runRepost (p : ℚ) (ttl : ℚ) (repostMax : ℕ) :
    List (ℚ × (ℚ × ℕ)) → List ℚ → List (ℚ × (ℚ × ℕ)) × ℕ
  | rc, [] => (rc, 0)
  | rc, t :: ts =>
    let r := windowOkAndInc rc p t ttl repostMax
    let rr := runRepost p ttl repostMax r.1 ts
    (rr.1, rr.2 + (if r.2 = true then 1 else 0))

/-- Price fixture: tick 0.1, one maker-offset tick, post-only — the
defaults of `cfg.py` with a 0.1 tick. -/
def cC : MkCfg := ⟨1/10, 1, true⟩

/-- Grid fixture: step 15, TTL 1800 s, repost cap 5, far reset at 5 steps
(the `cfg.py` defaults), one buy level at 85 and one sell level at 115
(a rebuild around center 100 with one level per side), clean bookkeeping. -/
def stBase : GridState :=
  { gridStep := 15, ttlSec := 1800, repostMax := 5, farSteps := 5
  , buyLv := [(85, 1/100)], sellLv := [(115, 1/100)]
  , missingSince := [], repostCount := []
  , lastPosLong := 0, lastPosShort := 0, lastFlatTsLong := 0, lastFlatTsShort := 0
  , pauseLong := false, pauseShort := false }

/-- Fixture for the far-away reset: the buy level's effective price 84.9
has a recorded missing timer (from t = 5) but no repost-count entry. -/
def stTimerOnly : GridState := { stBase with missingSince := [(849/10, 5)] }

/-- Fixture for the pause-flag bookkeeping: the long side is paused. -/
def stPausedLong : GridState := { stBase with pauseLong := true }

/-- Fixture with both a missing timer and a repost-count entry for the buy
level's effective price 84.9. -/
def stRepostTracked : GridState :=
  { stBase with missingSince := [(849/10, 7)], repostCount := [(849/10, (2, 3))] }

/-- A flat positions snapshot (no entry on a side). -/
def posFlat : PosInfo := ⟨0, 0, 0, 0⟩

/-- A long position 40 USD away from its liquidation price at price 100. -/
def posClose : PosInfo := ⟨1, 100, 60, -5⟩

/-- A long position 200 USD away from its liquidation price at price 100. -/
def posFar : PosInfo := ⟨1, 100, 300, 5⟩

/-- Fresh guard state. -/
def rs0 : RiskSt := ⟨false, false, 0, none⟩

/-! ## Helper lemmas -/

theorem alookup_aerase {α : Type} (m : List (ℚ × α)) (k p : ℚ) :
    alookup (aerase m k) p = if p = k then none else alookup m p := by
  induction m with
  | nil => simp [aerase, alookup]
  | cons e t ih =>
    by_cases h1 : e.1 = k
    · rw [show aerase (e :: t) k = aerase t k from by simp [aerase, h1], ih]
      by_cases h2 : p = k
      · simp [h2]
      · have h3 : ¬ e.1 = p := fun hc => h2 (by rw [← hc, h1])
        simp [h2, alookup, h3]
    · rw [show aerase (e :: t) k = e :: aerase t k from by simp [aerase, h1]]
      by_cases h2 : e.1 = p
      · have h3 : ¬ p = k := fun hc => h1 (by rw [h2, hc])
        simp [alookup, h2, h3]
      · simp [alookup, h2, ih]

theorem alookup_aset {α : Type} (m : List (ℚ × α)) (k p : ℚ) (v : α) :
    alookup (aset m k v) p = if p = k then some v else alookup m p := by
  by_cases h : p = k <;> simp [aset, alookup, h, alookup_aerase]
  exact fun h2 => absurd h2.symm h

theorem alookup_some_mem {α : Type} {m : List (ℚ × α)} {k : ℚ} {v : α}
    (h : alookup m k = some v) : (k, v) ∈ m := by
  induction m with
  | nil => simp [alookup] at h
  | cons e t ih =>
    by_cases h1 : e.1 = k
    · simp [alookup, h1] at h
      have he : e = (k, v) := by
        cases e
        simp_all
      rw [← he]
      exact List.mem_cons_self _ _
    · simp [alookup, h1] at h
      exact List.mem_cons_of_mem _ (ih h)

theorem alookup_aeraseAll_of_none {α : Type} (ks : List ℚ) (m : List (ℚ × α)) (p : ℚ)
    (h : alookup m p = none) : alookup (aeraseAll m ks) p = none := by
  induction ks generalizing m with
  | nil => exact h
  | cons k t ih =>
    show alookup (aeraseAll (aerase m k) t) p = none
    apply ih
    rw [alookup_aerase]
    by_cases hpk : p = k <;> simp [hpk, h]

theorem alookup_aeraseAll_of_mem {α : Type} (ks : List ℚ) (m : List (ℚ × α)) (p : ℚ)
    (h : p ∈ ks) : alookup (aeraseAll m ks) p = none := by
  induction ks generalizing m with
  | nil => simp at h
  | cons k t ih =>
    show alookup (aeraseAll (aerase m k) t) p = none
    rcases List.mem_cons.mp h with h1 | h1
    · apply alookup_aeraseAll_of_none
      rw [alookup_aerase, if_pos h1]
    · exact ih _ h1

theorem alookup_aeraseAll {α : Type} (ks : List ℚ) (m : List (ℚ × α)) (p : ℚ) :
    alookup (aeraseAll m ks) p = none ∨ alookup (aeraseAll m ks) p = alookup m p := by
  induction ks generalizing m with
  | nil => exact Or.inr rfl
  | cons k t ih =>
    rcases ih (aerase m k) with h | h
    · left
      show alookup (aeraseAll (aerase m k) t) p = none
      exact h
    · by_cases hpk : p = k
      · left
        show alookup (aeraseAll (aerase m k) t) p = none
        rw [h, alookup_aerase, if_pos hpk]
      · right
        show alookup (aeraseAll (aerase m k) t) p = alookup m p
        rw [h, alookup_aerase, if_neg hpk]

theorem mem_insertByFst {a x : ℚ × ℚ} {l : List (ℚ × ℚ)} :
    a ∈ insertByFst x l ↔ a = x ∨ a ∈ l := by
  induction l with
  | nil => simp [insertByFst]
  | cons y t ih =>
    by_cases h : x.1 < y.1
    · simp [insertByFst, h]
    · simp [insertByFst, h, ih]
      tauto

theorem mem_sortByFst {a : ℚ × ℚ} {l : List (ℚ × ℚ)} :
    a ∈ sortByFst l ↔ a ∈ l := by
  induction l with
  | nil => simp [sortByFst]
  | cons y t ih =>
    show a ∈ insertByFst y (sortByFst t) ↔ _
    rw [mem_insertByFst]
    simp [ih]

/-! ## Claim theorems -/

/-- C1. The claim states that the price the grid's posting path sends to
the exchange equals `_effective_limit_px(side, P)`, the value tested
against the live set during reconciliation. The claim is right about the
intent (the docstring of `_effective_limit_px` promises a comparison price
consistent with the actual order) but the code breaks it: `_post_one`
already passes the offset-and-rounded price to `Account.place_order`,
which applies the maker offset again. With tick 0.1, one offset tick and
`POST_ONLY`, the buy level P = 100 is posted at 99.8 while reconciliation
looks for 99.9, so the level is permanently seen as missing. -/
theorem grid_posting_price_differs_from_reconciliation_price :
    postOne cC (1/100) (1/100) Side.buy 100 (1/100) =
      some { side := Side.buy, posSide := PosSide.long, px := some (499/5)
           , sz := 1/100, reduceOnly := false, tag := "GRID" } ∧
    effectiveLimitPx cC Side.buy 100 = 999/10 ∧
    accountOrderPx cC Side.buy (effectiveLimitPx cC Side.buy 100) ≠
      effectiveLimitPx cC Side.buy 100 :=
  ⟨of_decide_eq_true (by with_unfolding_all rfl),
   of_decide_eq_true (by with_unfolding_all rfl),
   of_decide_eq_true (by with_unfolding_all rfl)⟩

/-- C2 (counterexample). The claim states that a failed open-orders query
makes the whole `place_missing` pass a no-op: no orders submitted, no
missing/repost bookkeeping updated. In the code, `_req` swallows the
failure and returns `{}`, so `live_grid_prices` returns the empty list and
the pass treats every ladder level as missing: on a fresh two-level grid
it records both missing timers, consumes both repost windows and submits
both orders in that very pass. -/
theorem query_failure_pass_not_noop :
    (placeMissing cC (1/100) (1/100) stBase 1000 100 (liveGridPrices none)
        (some (0, 0))).2.length = 2 ∧
    alookup (placeMissing cC (1/100) (1/100) stBase 1000 100 (liveGridPrices none)
        (some (0, 0))).1.missingSince (849/10) = some 1000 ∧
    alookup (placeMissing cC (1/100) (1/100) stBase 1000 100 (liveGridPrices none)
        (some (0, 0))).1.repostCount (849/10) = some (1000, 1) :=
  ⟨of_decide_eq_true (by with_unfolding_all rfl),
   of_decide_eq_true (by with_unfolding_all rfl),
   of_decide_eq_true (by with_unfolding_all rfl)⟩

/-- C2 (amended). A failed open-orders query is not short-circuited:
`_req` returns `{}`, `live_grid_prices` returns the empty list, and the
`place_missing` pass proceeds with an empty live set, treating every
ladder level as missing — it records first-missing timers and submits
orders subject to the neighbor/TTL and repost-window gates (here both
levels of the fixture grid are reposted at their double-offset prices). -/
theorem query_failure_treated_as_empty_live_set :
    liveGridPrices none = [] ∧
    (placeMissing cC (1/100) (1/100) stBase 1000 100 (liveGridPrices none)
        (some (0, 0))).2 =
      [ { side := Side.buy, posSide := PosSide.long, px := some (424/5)
        , sz := 1/100, reduceOnly := false, tag := "GRID" }
      , { side := Side.sell, posSide := PosSide.short, px := some (576/5)
        , sz := 1/100, reduceOnly := false, tag := "GRID" } ] ∧
    alookup (placeMissing cC (1/100) (1/100) stBase 1000 100 (liveGridPrices none)
        (some (0, 0))).1.missingSince (1151/10) = some 1000 :=
  ⟨rfl,
   of_decide_eq_true (by with_unfolding_all rfl),
   of_decide_eq_true (by with_unfolding_all rfl)⟩

/-- C3. The claim states that neither guard ever resumes a pause that the
other guard independently holds (a conservative OR). The code keeps one
shared `paused` flag and overwrites it in both directions: (run A) with
the margin guard's hold region still active (last ratio 1100, below the
1200 resume threshold), a liquidation-guard step that sees every position
side at a safe distance clears `paused`; (run B) a margin resume at ratio
1300 clears `paused` while the liquidation condition still holds, and the
next liquidation check skips re-pausing because its private `_liq_paused`
flag is still set. The last conjunct records the deployed inertness of the
liquidation guard: its price read `refresh_mid()()` always raises
`TypeError`, so `px_now` is always `none` and the guard then changes
nothing at all. -/
theorem liq_and_margin_guard_pause_overwritten :
    ((marginRefresh 5 1000 1200
        (liqCheck 80 140 (marginRefresh 5 1000 1200 rs0 10 900).1
          (some 100) posClose posFlat).1 20 1100).1.paused = true ∧
     (marginRefresh 5 1000 1200
        (liqCheck 80 140 (marginRefresh 5 1000 1200 rs0 10 900).1
          (some 100) posClose posFlat).1 20 1100).1.lastRatio = some 1100 ∧
     (1100 : ℚ) < 1200 ∧
     (liqCheck 80 140
        (marginRefresh 5 1000 1200
          (liqCheck 80 140 (marginRefresh 5 1000 1200 rs0 10 900).1
            (some 100) posClose posFlat).1 20 1100).1
        (some 100) posFar posFlat).1.paused = false) ∧
    ((liqCheck 80 140 rs0 (some 100) posClose posFlat).1.paused = true ∧
     (liqCheck 80 140 rs0 (some 100) posClose posFlat).1.liqPaused = true ∧
     (marginRefresh 5 1000 1200
        (liqCheck 80 140 rs0 (some 100) posClose posFlat).1 10 1300).1.paused = false ∧
     (liqCheck 80 140
        (marginRefresh 5 1000 1200
          (liqCheck 80 140 rs0 (some 100) posClose posFlat).1 10 1300).1
        (some 100) posClose posFlat).1.paused = false) ∧
    liqCheck 80 140 rs0 none posClose posFlat = (rs0, []) :=
  ⟨⟨of_decide_eq_true (by with_unfolding_all rfl),
    of_decide_eq_true (by with_unfolding_all rfl),
    by norm_num,
    of_decide_eq_true (by with_unfolding_all rfl)⟩,
   ⟨of_decide_eq_true (by with_unfolding_all rfl),
    of_decide_eq_true (by with_unfolding_all rfl),
    of_decide_eq_true (by with_unfolding_all rfl),
    of_decide_eq_true (by with_unfolding_all rfl)⟩,
   of_decide_eq_true (by with_unfolding_all rfl)⟩

/-- C4 (counterexample). The claim states that the far-away reset clears
the repost counter and the missing timer of every level with recorded
missing or repost state, explicitly including a level that only has a
missing timer. `_faraway_reset_if_needed` iterates over the repost-count
map only: here the buy level's effective price 84.9 has a missing timer
(t = 5) and no repost entry, the price 160 is more than five 15-USD steps
away, the level's ladder neighbor is live, and after the full
`place_missing` pass the timer is still there. -/
theorem faraway_reset_skips_timer_only_level :
    (5 : ℚ) ≤ |((160 : ℚ) - 849/10) / 15| ∧
    alookup (placeMissing cC (1/100) (1/100) stTimerOnly 1000 160 [1151/10]
        (some (0, 0))).1.missingSince (849/10) = some 5 :=
  ⟨of_decide_eq_true (by with_unfolding_all rfl),
   of_decide_eq_true (by with_unfolding_all rfl)⟩

/-- C4 (amended). On every `place_missing` pass the far-away reset step
(which the pass runs before the per-level scan) clears both the repost
counter and the missing timer of every level that has a repost-count
entry and whose effective price is at least `farSteps` grid steps from the
current price; a level that only has a missing timer is not touched, and
the scan that follows may record fresh missing/repost state. -/
theorem faraway_reset_clears_repost_tracked_levels
    (st : GridState) (nowPx p : ℚ) (w : ℚ) (cnt : ℕ)
    (hrc : alookup st.repostCount p = some (w, cnt))
    (hfar : (st.farSteps : ℚ) ≤ |(nowPx - p) / st.gridStep|) :
    alookup (farawayReset st nowPx).repostCount p = none ∧
    alookup (farawayReset st nowPx).missingSince p = none := by
  have hmem : p ∈ st.repostCount.filterMap
      (fun e => if farCond st.gridStep st.farSteps nowPx e.1 then some e.1 else none) := by
    rw [List.mem_filterMap]
    refine ⟨(p, (w, cnt)), alookup_some_mem hrc, ?_⟩
    simp only [farCond]
    rw [if_pos (by simpa using hfar)]
  exact ⟨alookup_aeraseAll_of_mem _ _ _ hmem, alookup_aeraseAll_of_mem _ _ _ hmem⟩

/-- Witness for the amended C4 theorem. -/
theorem faraway_reset_clears_repost_tracked_levels_witness :
    alookup (farawayReset stRepostTracked 160).repostCount (849/10) = none ∧
    alookup (farawayReset stRepostTracked 160).missingSince (849/10) = none :=
  faraway_reset_clears_repost_tracked_levels stRepostTracked 160 (849/10) 2 3
    (of_decide_eq_true (by with_unfolding_all rfl))
    (of_decide_eq_true (by with_unfolding_all rfl))

/-- C10. On every non-throttled `MarginGuard.refresh` (at least
`max(1, MARGIN_CHECK_SEC)` seconds after the previous one) that sees a
ratio at or below the stop threshold, the guard sets the pause and issues
cancel-by-tag requests for GRID, DCA and ADD — in every state, so it
repeats the cancellation on every such refresh while the ratio stays at or
below the stop threshold, not only on the transition into paused. -/
theorem margin_guard_cancels_risk_tags_each_refresh
    (checkSec : ℤ) (stopTh resumeTh : ℚ) (st : RiskSt) (now ratio : ℚ)
    (hthr : ((max 1 checkSec : ℤ) : ℚ) ≤ now - st.lastTs)
    (hstop : ratio ≤ stopTh) :
    (marginRefresh checkSec stopTh resumeTh st now ratio).1.paused = true ∧
    (marginRefresh checkSec stopTh resumeTh st now ratio).2 =
      [CancelAct.mk "GRID" none, CancelAct.mk "DCA" none, CancelAct.mk "ADD" none] := by
  unfold marginRefresh
  rw [if_neg (not_lt.mpr hthr), if_pos hstop]
  exact ⟨rfl, rfl⟩

/-- Witness for the C10 theorem, at a state that is already paused: the
cancellation is repeated, not restricted to the pause transition. -/
theorem margin_guard_cancels_risk_tags_each_refresh_witness :
    (marginRefresh 5 1000 1200 ⟨true, false, 10, some 900⟩ 20 950).1.paused = true ∧
    (marginRefresh 5 1000 1200 ⟨true, false, 10, some 900⟩ 20 950).2 =
      [CancelAct.mk "GRID" none, CancelAct.mk "DCA" none, CancelAct.mk "ADD" none] :=
  margin_guard_cancels_risk_tags_each_refresh 5 1000 1200 ⟨true, false, 10, some 900⟩ 20 950
    (of_decide_eq_true (by with_unfolding_all rfl))
    (of_decide_eq_true (by with_unfolding_all rfl))

/-- Invariant of repeated `_window_ok_and_inc` calls inside one window:
the stored window start is preserved, the count grows exactly by the
number of accepted calls, and it never exceeds the cap. -/
theorem runRepost_invariant (p ttl : ℚ) (repostMax : ℕ) (ts : List ℚ) :
    ∀ (rc : List (ℚ × (ℚ × ℕ))) (w : ℚ) (c : ℕ),
    alookup rc p = some (w, c) → c ≤ repostMax → (∀ t ∈ ts, t - w < ttl) →
    alookup (runRepost p ttl repostMax rc ts).1 p
        = some (w, c + (runRepost p ttl repostMax rc ts).2) ∧
    c + (runRepost p ttl repostMax rc ts).2 ≤ repostMax := by
  induction ts with
  | nil =>
    intro rc w c hl hc _
    simpa [runRepost] using ⟨hl, hc⟩
  | cons t ts ih =>
    intro rc w c hl hc hts
    have hlt : t - w < ttl := hts t (List.mem_cons_self _ _)
    have hts2 : ∀ u ∈ ts, u - w < ttl := fun u hu => hts u (List.mem_cons_of_mem _ hu)
    by_cases hmax : repostMax ≤ c
    · have hr : windowOkAndInc rc p t ttl repostMax = (rc, false) := by
        simp only [windowOkAndInc, hl, Option.getD_some]
        rw [if_neg (not_le.mpr hlt), if_pos hmax]
      have hrec := ih rc w c hl hc hts2
      simp only [runRepost, hr]
      simpa using hrec
    · have hr : windowOkAndInc rc p t ttl repostMax = (aset rc p (w, c + 1), true) := by
        simp only [windowOkAndInc, hl, Option.getD_some]
        rw [if_neg (not_le.mpr hlt), if_neg hmax]
      have hl2 : alookup (aset rc p (w, c + 1)) p = some (w, c + 1) := by
        rw [alookup_aset, if_pos rfl]
      have hrec := ih (aset rc p (w, c + 1)) w (c + 1) hl2 (Nat.succ_le_of_lt (not_le.mp hmax)) hts2
      simp only [runRepost, hr, eq_self_iff_true, if_true]
      rw [show c + ((runRepost p ttl repostMax (aset rc p (w, c + 1)) ts).2 + 1)
            = (c + 1) + (runRepost p ttl repostMax (aset rc p (w, c + 1)) ts).2 from by omega]
      exact hrec

/-- `_window_ok_and_inc` either refuses and leaves the map unchanged, or
accepts with remaining capacity and stores the incremented count. -/
theorem windowOkAndInc_result (rc : List (ℚ × (ℚ × ℕ))) (p nowTs ttl : ℚ) (repostMax : ℕ) :
    (windowOkAndInc rc p nowTs ttl repostMax).1 = rc ∨
    ∃ w2 c2, c2 < repostMax ∧
      (windowOkAndInc rc p nowTs ttl repostMax).1 = aset rc p (w2, c2 + 1) := by
  simp only [windowOkAndInc]
  split <;> split
  all_goals
    first
      | exact Or.inl rfl
      | (rename_i h
         exact Or.inr ⟨_, _, Nat.lt_of_not_le h, rfl⟩)

/-- C7. The repost frequency cap of `_window_ok_and_inc` (the gate every
`place_missing` repost passes through): (1) any stored count stays at or
below `repost_max` across a call; (2) starting from a freshly opened
window `(w, 0)`, any sequence of calls whose times stay inside
`[w, w + ttl)` is accepted at most `repost_max` times and the stored count
stays at or below `repost_max`; (3) a call inside the window with the
count already at `repost_max` — the (max+1)-th attempt — is refused and
changes nothing; (4) once the window has expired the counter resets and
reposting is permitted again (the call is accepted and stores
`(now, 1)`). -/
theorem repost_window_cap :
    (∀ (rc : List (ℚ × (ℚ × ℕ))) (p nowTs ttl : ℚ) (repostMax : ℕ),
      (∀ w c, alookup rc p = some (w, c) → c ≤ repostMax) →
      ∀ w c, alookup (windowOkAndInc rc p nowTs ttl repostMax).1 p = some (w, c) →
        c ≤ repostMax) ∧
    (∀ (p ttl : ℚ) (repostMax : ℕ) (ts : List ℚ) (rc : List (ℚ × (ℚ × ℕ))) (w : ℚ),
      alookup rc p = some (w, 0) → (∀ t ∈ ts, t - w < ttl) →
      (runRepost p ttl repostMax rc ts).2 ≤ repostMax ∧
      ∃ c, alookup (runRepost p ttl repostMax rc ts).1 p = some (w, c) ∧
        c ≤ repostMax) ∧
    (∀ (rc : List (ℚ × (ℚ × ℕ))) (p nowTs ttl : ℚ) (repostMax : ℕ) (w : ℚ) (c : ℕ),
      alookup rc p = some (w, c) → repostMax ≤ c → nowTs - w < ttl →
      windowOkAndInc rc p nowTs ttl repostMax = (rc, false)) ∧
    (∀ (rc : List (ℚ × (ℚ × ℕ))) (p nowTs ttl : ℚ) (repostMax : ℕ) (w : ℚ) (c : ℕ),
      alookup rc p = some (w, c) → ttl ≤ nowTs - w → 0 < repostMax →
      windowOkAndInc rc p nowTs ttl repostMax = (aset rc p (nowTs, 1), true)) := by
  refine ⟨?_, ?_, ?_, ?_⟩
  · intro rc p nowTs ttl repostMax hinv w c hl
    rcases windowOkAndInc_result rc p nowTs ttl repostMax with h | ⟨w2, c2, hc2, h⟩
    · rw [h] at hl
      exact hinv w c hl
    · rw [h, alookup_aset, if_pos rfl] at hl
      have hc : c = c2 + 1 := by
        injection hl with h2
        exact (congrArg Prod.snd h2).symm
      omega
  · intro p ttl repostMax ts rc w hl hts
    have h := runRepost_invariant p ttl repostMax ts rc w 0 hl (Nat.zero_le _) hts
    refine ⟨by simpa using h.2, (runRepost p ttl repostMax rc ts).2, by simpa using h.1,
      by simpa using h.2⟩
  · intro rc p nowTs ttl repostMax w c hl hmax hlt
    simp only [windowOkAndInc, hl, Option.getD_some]
    rw [if_neg (not_le.mpr hlt), if_pos hmax]
  · intro rc p nowTs ttl repostMax w c hl hexp hpos
    simp only [windowOkAndInc, hl, Option.getD_some]
    rw [if_pos hexp, if_neg (show ¬ repostMax ≤ (((nowTs, 0) : ℚ × ℕ)).2 from by
      simpa using Nat.pos_iff_ne_zero.mp hpos)]

/-- Witness for the C7 theorem: a fresh level is accepted and stored with
count 1; three in-window calls from a fresh window are all accepted
(3 ≤ 5) and leave count 3; the sixth attempt at count 5 is refused and
leaves the map unchanged; an expired window resets to `(now, 1)`. -/
theorem repost_window_cap_witness :
    ((∀ w c, alookup (windowOkAndInc [] 5 1 1800 5).1 5 = some (w, c) → c ≤ 5) ∧
     ((runRepost 5 1800 5 [(5, (0, 0))] [1, 2, 3]).2 ≤ 5 ∧
      ∃ c, alookup (runRepost 5 1800 5 [(5, (0, 0))] [1, 2, 3]).1 5 = some (0, c) ∧
        c ≤ 5) ∧
     windowOkAndInc [(5, (0, 5))] 5 10 1800 5 = ([(5, (0, 5))], false) ∧
     windowOkAndInc [(5, (0, 5))] 5 2000 1800 5 = (aset [(5, (0, 5))] 5 (2000, 1), true)) :=
  ⟨repost_window_cap.1 [] 5 1 1800 5 (fun w c h => by simp [alookup] at h),
   repost_window_cap.2.1 5 1800 5 [1, 2, 3] [(5, (0, 0))] 0
     (of_decide_eq_true (by with_unfolding_all rfl))
     (of_decide_eq_true (by with_unfolding_all rfl)),
   repost_window_cap.2.2.1 [(5, (0, 5))] 5 10 1800 5 0 5
     (of_decide_eq_true (by with_unfolding_all rfl))
     (of_decide_eq_true (by with_unfolding_all rfl))
     (of_decide_eq_true (by with_unfolding_all rfl)),
   repost_window_cap.2.2.2 [(5, (0, 5))] 5 2000 1800 5 0 5
     (of_decide_eq_true (by with_unfolding_all rfl))
     (of_decide_eq_true (by with_unfolding_all rfl))
     (of_decide_eq_true (by with_unfolding_all rfl))⟩

/-- C9. The take-profit trailing scenario: long position of quantity 1
(lot = minSz = 0.1, so partial and full close sizes align above the
minimum), base threshold 0.5 USD, partial ratio 0.3, a bull trend signal
on every pass, and unrealized-PnL samples 0.2, 0.6, 0.9, 0.5. No order at
0.2; exactly one partial reduce-only close of 0.3 at 0.6 with trailing
armed and peak 0.6; no close at 0.9 with peak updated to 0.9; and a full
reduce-only close of the remainder at 0.5 whenever the drawdown 0.4 is at
least the configured USD floor (any positive floor up to 0.4; the
percentage threshold may be any positive value), after which the per-side
take-profit state and the trend-open counter are reset. -/
theorem take_profit_trailing_scenario (tu tp : ℚ)
    (htu0 : 0 < tu) (htu : tu ≤ 2/5) (htp0 : 0 < tp) :
    (tpRun ⟨1/2, 3/10, tu, tp, 1/10, 1/10⟩ ⟨false, false, false, false, 0, 0, 3, 0⟩
      [⟨1, 1/5, 0, 0, true, false⟩, ⟨1, 3/5, 0, 0, true, false⟩]).1 =
      ⟨true, false, true, false, 3/5, 0, 3, 0⟩ ∧
    (tpRun ⟨1/2, 3/10, tu, tp, 1/10, 1/10⟩ ⟨false, false, false, false, 0, 0, 3, 0⟩
      [⟨1, 1/5, 0, 0, true, false⟩, ⟨1, 3/5, 0, 0, true, false⟩,
       ⟨1, 9/10, 0, 0, true, false⟩]).1 =
      ⟨true, false, true, false, 9/10, 0, 3, 0⟩ ∧
    tpRun ⟨1/2, 3/10, tu, tp, 1/10, 1/10⟩ ⟨false, false, false, false, 0, 0, 3, 0⟩
      [⟨1, 1/5, 0, 0, true, false⟩, ⟨1, 3/5, 0, 0, true, false⟩,
       ⟨1, 9/10, 0, 0, true, false⟩, ⟨1, 1/2, 0, 0, true, false⟩] =
      (⟨false, false, false, false, 0, 0, 0, 0⟩,
       [[],
        [TpEvent.order ⟨Side.sell, PosSide.long, none, 3/10, true, "TP"⟩],
        [],
        [TpEvent.order ⟨Side.sell, PosSide.long, none, 1, true, "TP"⟩]]) := by
  have e1 : tpStep ⟨1/2, 3/10, tu, tp, 1/10, 1/10⟩ ⟨false, false, false, false, 0, 0, 3, 0⟩
      ⟨1, 1/5, 0, 0, true, false⟩ = (⟨false, false, false, false, 1/5, 0, 3, 0⟩, []) := by
    norm_num [tpStep, tpSide, decRoundDown, closeSide]
  have e2 : tpStep ⟨1/2, 3/10, tu, tp, 1/10, 1/10⟩ ⟨false, false, false, false, 1/5, 0, 3, 0⟩
      ⟨1, 3/5, 0, 0, true, false⟩ =
      (⟨true, false, true, false, 3/5, 0, 3, 0⟩,
       [TpEvent.order ⟨Side.sell, PosSide.long, none, 3/10, true, "TP"⟩]) := by
    norm_num [tpStep, tpSide, decRoundDown, closeSide]
  have e3 : tpStep ⟨1/2, 3/10, tu, tp, 1/10, 1/10⟩ ⟨true, false, true, false, 3/5, 0, 3, 0⟩
      ⟨1, 9/10, 0, 0, true, false⟩ =
      (⟨true, false, true, false, 9/10, 0, 3, 0⟩, []) := by
    norm_num [tpStep, tpSide, decRoundDown, closeSide, htu0.not_le, htp0.not_le]
  have e4 : tpStep ⟨1/2, 3/10, tu, tp, 1/10, 1/10⟩ ⟨true, false, true, false, 9/10, 0, 3, 0⟩
      ⟨1, 1/2, 0, 0, true, false⟩ =
      (⟨false, false, false, false, 0, 0, 0, 0⟩,
       [TpEvent.order ⟨Side.sell, PosSide.long, none, 1, true, "TP"⟩]) := by
    norm_num [tpStep, tpSide, decRoundDown, closeSide, htu]
  refine ⟨?_, ?_, ?_⟩ <;>
    simp only [tpRun, e1, e2, e3, e4]

/-- Witness for the C9 theorem at trail floor 0.4 and the default 0.007
percentage threshold. -/
theorem take_profit_trailing_scenario_witness :
    (tpRun ⟨1/2, 3/10, 2/5, 7/1000, 1/10, 1/10⟩ ⟨false, false, false, false, 0, 0, 3, 0⟩
      [⟨1, 1/5, 0, 0, true, false⟩, ⟨1, 3/5, 0, 0, true, false⟩]).1 =
      ⟨true, false, true, false, 3/5, 0, 3, 0⟩ ∧
    (tpRun ⟨1/2, 3/10, 2/5, 7/1000, 1/10, 1/10⟩ ⟨false, false, false, false, 0, 0, 3, 0⟩
      [⟨1, 1/5, 0, 0, true, false⟩, ⟨1, 3/5, 0, 0, true, false⟩,
       ⟨1, 9/10, 0, 0, true, false⟩]).1 =
      ⟨true, false, true, false, 9/10, 0, 3, 0⟩ ∧
    tpRun ⟨1/2, 3/10, 2/5, 7/1000, 1/10, 1/10⟩ ⟨false, false, false, false, 0, 0, 3, 0⟩
      [⟨1, 1/5, 0, 0, true, false⟩, ⟨1, 3/5, 0, 0, true, false⟩,
       ⟨1, 9/10, 0, 0, true, false⟩, ⟨1, 1/2, 0, 0, true, false⟩] =
      (⟨false, false, false, false, 0, 0, 0, 0⟩,
       [[],
        [TpEvent.order ⟨Side.sell, PosSide.long, none, 3/10, true, "TP"⟩],
        [],
        [TpEvent.order ⟨Side.sell, PosSide.long, none, 1, true, "TP"⟩]]) :=
  take_profit_trailing_scenario (2/5) (7/1000)
    (of_decide_eq_true (by with_unfolding_all rfl))
    (of_decide_eq_true (by with_unfolding_all rfl))
    (of_decide_eq_true (by with_unfolding_all rfl))

/-- Every order a DCA side step emits carries that side. -/
theorem dcaSideStep_orders_posSide (cfg : DcaCfg) (gp : Bool) (px : ℚ) (side : PosSide)
    (i : DcaSideIn) (f : Bool) (u : ℕ) (pa : Bool) (fe : Option ℚ) :
    ∀ o ∈ (dcaSideStep cfg gp px side i f u pa fe).orders, o.posSide = side := by
  intro o ho
  unfold dcaSideStep at ho
  repeat' split_ifs at ho <;> simp_all

/-- A DCA side step never pushes the slot counter above the cap. -/
theorem dcaSideStep_used_le (cfg : DcaCfg) (gp : Bool) (px : ℚ) (side : PosSide)
    (i : DcaSideIn) (f : Bool) (u : ℕ) (pa : Bool) (fe : Option ℚ)
    (h : u ≤ cfg.cap) :
    (dcaSideStep cfg gp px side i f u pa fe).used ≤ cfg.cap := by
  unfold dcaSideStep
  repeat' split_ifs <;> simp_all
  all_goals omega

/-- Long-side case analysis of a DCA side step under no window exit:
either nothing is added, or exactly one DCA order is added, a slot was
free, and the counter advances by one. -/
theorem dcaSideStep_long_cases (cfg : DcaCfg) (gp : Bool) (px : ℚ)
    (i : DcaSideIn) (f : Bool) (u : ℕ) (pa : Bool) (fe : Option ℚ)
    (hexit : ¬ dcaExitLong px i) :
    ((dcaSideStep cfg gp px PosSide.long i f u pa fe).used = u ∧
     (dcaSideStep cfg gp px PosSide.long i f u pa fe).orders = []) ∨
    ((dcaSideStep cfg gp px PosSide.long i f u pa fe).used = u + 1 ∧ u < cfg.cap ∧
     (dcaSideStep cfg gp px PosSide.long i f u pa fe).orders =
       [OrderIntent.mk Side.buy PosSide.long none (lotsVal i.lots) false "DCA"]) := by
  have hexit2 : ¬ ((if i.avg2 = 0 then px else i.avg2) ≤ px) := hexit
  unfold dcaSideStep
  simp only [eq_self_iff_true, if_true]
  rw [if_neg hexit2]
  repeat' split_ifs <;> simp_all

/-- A DCA side step outside the window never changes the slot counter. -/
theorem dcaSideStep_not_in (cfg : DcaCfg) (gp : Bool) (px : ℚ) (side : PosSide)
    (i : DcaSideIn) (u : ℕ) (pa : Bool) (fe : Option ℚ) :
    (dcaSideStep cfg gp px side i false u pa fe).used = u := by
  unfold dcaSideStep
  repeat' split_ifs <;> simp_all

/-- `dcaLongOrders` distributes over append. -/
theorem dcaLongOrders_append (a b : List OrderIntent) :
    dcaLongOrders (a ++ b) = dcaLongOrders a ++ dcaLongOrders b := by
  simp [dcaLongOrders]

theorem dcaLongOrders_nil : dcaLongOrders [] = [] := rfl

theorem dcaLongOrders_singleton (v : ℚ) :
    dcaLongOrders [OrderIntent.mk Side.buy PosSide.long none v false "DCA"]
      = [OrderIntent.mk Side.buy PosSide.long none v false "DCA"] := by
  simp [dcaLongOrders]

theorem dcaLongOrders_cons_dca (v : ℚ) (rest : List OrderIntent) :
    dcaLongOrders (OrderIntent.mk Side.buy PosSide.long none v false "DCA" :: rest)
      = OrderIntent.mk Side.buy PosSide.long none v false "DCA" :: dcaLongOrders rest := by
  simp [dcaLongOrders]

/-- One `_dca_if_needed` call with no long-side window exit: the long slot
counter advances exactly by the number of long DCA orders emitted, at most
one such order is emitted, and one is emitted only if a slot was free. -/
theorem dcaStep_long_call (cfg : DcaCfg) (gp : Bool) (st : DcaState) (px : ℚ)
    (iL iS : DcaSideIn) (hexit : ¬ dcaExitLong px iL) :
    (dcaStep cfg gp st px iL iS).1.usedLong
      = st.usedLong + (dcaLongOrders (dcaStep cfg gp st px iL iS).2).length ∧
    (dcaLongOrders (dcaStep cfg gp st px iL iS).2).length ≤ 1 ∧
    ((dcaLongOrders (dcaStep cfg gp st px iL iS).2).length = 1 →
      st.usedLong < cfg.cap) := by
  by_cases hen : cfg.enable = false
  · simp [dcaStep, hen, dcaLongOrders]
  · rcases Bool.eq_false_or_eq_true gp with hgp | hgp
    · subst hgp
      simp [dcaStep, hen, dcaLongOrders]
    · subst hgp
      have hS : dcaLongOrders (dcaSideStep cfg false px PosSide.short iS st.inShort
          st.usedShort st.pauseShort st.firstEntryShort).orders = [] := by
        rw [dcaLongOrders, List.filter_eq_nil_iff]
        intro o ho
        have hps := dcaSideStep_orders_posSide cfg false px PosSide.short iS st.inShort
          st.usedShort st.pauseShort st.firstEntryShort o ho
        simp [hps]
      rcases dcaSideStep_long_cases cfg false px iL st.inLong st.usedLong st.pauseLong
          st.firstEntryLong hexit with ⟨hu, ho⟩ | ⟨hu, hlt, ho⟩
      · by_cases hcr : (dcaSideStep cfg false px PosSide.long iL st.inLong st.usedLong
            st.pauseLong st.firstEntryLong).crashed = true <;>
          simp [dcaStep, hen, hcr, hu, ho, hS, dcaLongOrders_append, dcaLongOrders_nil]
      · by_cases hcr : (dcaSideStep cfg false px PosSide.long iL st.inLong st.usedLong
            st.pauseLong st.firstEntryLong).crashed = true <;>
          simp [dcaStep, hen, hcr, hu, ho, hS, hlt, dcaLongOrders_append,
            dcaLongOrders_nil, dcaLongOrders_singleton, dcaLongOrders_cons_dca]

/-- Across any run of `_dca_if_needed` calls during which the long side
never exits its window, the slot counter equals its start value plus the
number of long DCA orders emitted, and it never exceeds the cap. -/
theorem dcaRun_long_cap (cfg : DcaCfg) (ticks : List DcaTick) :
    ∀ (st : DcaState), st.usedLong ≤ cfg.cap →
    (∀ tk ∈ ticks, ¬ dcaExitLong tk.px tk.long) →
    (dcaRun cfg st ticks).1.usedLong
      = st.usedLong + (dcaLongOrders (dcaRun cfg st ticks).2).length ∧
    (dcaRun cfg st ticks).1.usedLong ≤ cfg.cap := by
  induction ticks with
  | nil =>
    intro st h _
    simpa [dcaRun, dcaLongOrders] using h
  | cons tk ts ih =>
    intro st hcap hnx
    have hx : ¬ dcaExitLong tk.px tk.long := hnx tk (List.mem_cons_self _ _)
    have hcall := dcaStep_long_call cfg tk.guardPaused st tk.px tk.long tk.short hx
    have hcap1 : (dcaStep cfg tk.guardPaused st tk.px tk.long tk.short).1.usedLong
        ≤ cfg.cap := by
      rcases Nat.le_one_iff_eq_zero_or_eq_one.mp hcall.2.1 with h0 | h1
      · omega
      · have := hcall.2.2 h1
        omega
    have hrun := ih _ hcap1 (fun u hu => hnx u (List.mem_cons_of_mem _ hu))
    have h1 := hcall.1
    have h2 := hrun.1
    constructor
    · simp only [dcaRun, dcaLongOrders_append, List.length_append]
      omega
    · simp only [dcaRun]
      exact hrun.2

/-- C8. The DCA cap of `_dca_if_needed`: (1) one call never pushes either
side's used-slot counter above `DCA_TOTAL_CAP`; (2) across any sequence of
calls in which the long side never exits its Active window (price never
recovers to the second fetch's average entry), at most
`cap − usedLong` long DCA add orders are submitted, regardless of how many
reverse-momentum signals fire, and the counter stays at or below the cap;
(3) the counter is reset (in fact, ever decreased) only by a window exit.
The add path's `_notional_to_lots` outcome is quantified over, covering
both the deployed behavior (it always raises `TypeError`, so the call
aborts before placing or counting) and a successful conversion. -/
theorem dca_slot_cap :
    (∀ (cfg : DcaCfg) (gp : Bool) (st : DcaState) (px : ℚ) (iL iS : DcaSideIn),
      st.usedLong ≤ cfg.cap → st.usedShort ≤ cfg.cap →
      (dcaStep cfg gp st px iL iS).1.usedLong ≤ cfg.cap ∧
      (dcaStep cfg gp st px iL iS).1.usedShort ≤ cfg.cap) ∧
    (∀ (cfg : DcaCfg) (st : DcaState) (ticks : List DcaTick),
      st.usedLong ≤ cfg.cap → (∀ tk ∈ ticks, ¬ dcaExitLong tk.px tk.long) →
      (dcaLongOrders (dcaRun cfg st ticks).2).length + st.usedLong ≤ cfg.cap ∧
      (dcaRun cfg st ticks).1.usedLong ≤ cfg.cap) ∧
    (∀ (cfg : DcaCfg) (gp : Bool) (st : DcaState) (px : ℚ) (iL iS : DcaSideIn),
      ¬ (st.inLong = true ∧ dcaExitLong px iL) →
      st.usedLong ≤ (dcaStep cfg gp st px iL iS).1.usedLong) := by
  refine ⟨?_, ?_, ?_⟩
  · intro cfg gp st px iL iS hL hS
    by_cases hen : cfg.enable = false
    · simp [dcaStep, hen, hL, hS]
    · rcases Bool.eq_false_or_eq_true gp with hgp | hgp
      · subst hgp
        simp [dcaStep, hen, hL, hS]
      · subst hgp
        have h1 := dcaSideStep_used_le cfg false px PosSide.long iL st.inLong st.usedLong
          st.pauseLong st.firstEntryLong hL
        have h2 := dcaSideStep_used_le cfg false px PosSide.short iS st.inShort
          st.usedShort st.pauseShort st.firstEntryShort hS
        by_cases hcr : (dcaSideStep cfg false px PosSide.long iL st.inLong st.usedLong
            st.pauseLong st.firstEntryLong).crashed = true <;>
          simp [dcaStep, hen, hcr, h1, h2, hS]
  · intro cfg st ticks hcap hnx
    have h := dcaRun_long_cap cfg ticks st hcap hnx
    exact ⟨by omega, h.2⟩
  · intro cfg gp st px iL iS h
    by_cases hen : cfg.enable = false
    · simp [dcaStep, hen]
    · rcases Bool.eq_false_or_eq_true gp with hgp | hgp
      · subst hgp
        simp [dcaStep, hen]
      · subst hgp
        by_cases hin : st.inLong = true
        · have hx : ¬ dcaExitLong px iL := fun hx => h ⟨hin, hx⟩
          rcases dcaSideStep_long_cases cfg false px iL st.inLong st.usedLong st.pauseLong
              st.firstEntryLong hx with ⟨hu, _⟩ | ⟨hu, _, _⟩ <;>
            by_cases hcr : (dcaSideStep cfg false px PosSide.long iL st.inLong st.usedLong
                st.pauseLong st.firstEntryLong).crashed = true <;>
              simp [dcaStep, hen, hcr, hu]
        · have hf : st.inLong = false := by
            cases hb : st.inLong
            · rfl
            · exact absurd hb hin
          have hu := dcaSideStep_not_in cfg false px PosSide.long iL st.usedLong
            st.pauseLong st.firstEntryLong
          by_cases hcr : (dcaSideStep cfg false px PosSide.long iL false st.usedLong
              st.pauseLong st.firstEntryLong).crashed = true <;>
            simp [dcaStep, hen, hf, hcr, hu]

/-- Witness for the C8 theorem: cap 4, a state with three used long slots
inside the window, a firing signal and a successful lots conversion — the
call may add once (3 < 4), the three-tick no-exit run stays within the
cap, and the counter does not decrease without an exit. -/
theorem dca_slot_cap_witness :
    ((dcaStep ⟨true, 2/25, 6/25, 4⟩ false
        ⟨true, false, 3, 0, true, false, some 100, none⟩ 80
        ⟨90, 90, true, Except.ok 1⟩ ⟨0, 0, false, Except.error ()⟩).1.usedLong ≤ 4 ∧
     (dcaStep ⟨true, 2/25, 6/25, 4⟩ false
        ⟨true, false, 3, 0, true, false, some 100, none⟩ 80
        ⟨90, 90, true, Except.ok 1⟩ ⟨0, 0, false, Except.error ()⟩).1.usedShort ≤ 4) ∧
    ((dcaLongOrders (dcaRun ⟨true, 2/25, 6/25, 4⟩
        ⟨true, false, 0, 0, true, false, some 100, none⟩
        [⟨false, 80, ⟨90, 90, true, Except.ok 1⟩, ⟨0, 0, false, Except.error ()⟩⟩,
         ⟨false, 80, ⟨90, 90, true, Except.ok 1⟩, ⟨0, 0, false, Except.error ()⟩⟩,
         ⟨false, 80, ⟨90, 90, true, Except.ok 1⟩, ⟨0, 0, false, Except.error ()⟩⟩]).2).length
        + 0 ≤ 4 ∧
     (dcaRun ⟨true, 2/25, 6/25, 4⟩ ⟨true, false, 0, 0, true, false, some 100, none⟩
        [⟨false, 80, ⟨90, 90, true, Except.ok 1⟩, ⟨0, 0, false, Except.error ()⟩⟩,
         ⟨false, 80, ⟨90, 90, true, Except.ok 1⟩, ⟨0, 0, false, Except.error ()⟩⟩,
         ⟨false, 80, ⟨90, 90, true, Except.ok 1⟩, ⟨0, 0, false, Except.error ()⟩⟩]).1.usedLong
        ≤ 4) ∧
    (3 : ℕ) ≤ (dcaStep ⟨true, 2/25, 6/25, 4⟩ false
        ⟨true, false, 3, 0, true, false, some 100, none⟩ 80
        ⟨90, 90, true, Except.ok 1⟩ ⟨0, 0, false, Except.error ()⟩).1.usedLong :=
  ⟨dca_slot_cap.1 ⟨true, 2/25, 6/25, 4⟩ false
      ⟨true, false, 3, 0, true, false, some 100, none⟩ 80
      ⟨90, 90, true, Except.ok 1⟩ ⟨0, 0, false, Except.error ()⟩
      (of_decide_eq_true (by with_unfolding_all rfl))
      (of_decide_eq_true (by with_unfolding_all rfl)),
   dca_slot_cap.2.1 ⟨true, 2/25, 6/25, 4⟩ ⟨true, false, 0, 0, true, false, some 100, none⟩
      [⟨false, 80, ⟨90, 90, true, Except.ok 1⟩, ⟨0, 0, false, Except.error ()⟩⟩,
       ⟨false, 80, ⟨90, 90, true, Except.ok 1⟩, ⟨0, 0, false, Except.error ()⟩⟩,
       ⟨false, 80, ⟨90, 90, true, Except.ok 1⟩, ⟨0, 0, false, Except.error ()⟩⟩]
      (of_decide_eq_true (by with_unfolding_all rfl))
      (by
        intro tk htk
        simp only [List.mem_cons, List.not_mem_nil, or_false] at htk
        rcases htk with h | h | h <;> subst h <;> intro hx <;>
          norm_num [dcaExitLong] at hx),
   dca_slot_cap.2.2 ⟨true, 2/25, 6/25, 4⟩ false
      ⟨true, false, 3, 0, true, false, some 100, none⟩ 80
      ⟨90, 90, true, Except.ok 1⟩ ⟨0, 0, false, Except.error ()⟩
      (by
        intro hand
        norm_num [dcaExitLong] at hand)⟩

/-! ## Per-level and per-pass lemmas about the grid scan -/

theorem postOne_side (c : MkCfg) (lot minSz : ℚ) (side : Side) (px sz : ℚ)
    (o : OrderIntent) (h : postOne c lot minSz side px sz = some o) : o.side = side := by
  simp only [postOne] at h
  split_ifs at h
  injection h with h2
  rw [← h2]

/-- A level whose effective price is live: the scan clears its missing
timer and does nothing else. -/
theorem handleLevel_live (c : MkCfg) (lot minSz : ℚ) (live ladder : List ℚ)
    (paused : Bool) (nowTs ttl : ℚ) (repostMax : ℕ) (side : Side) (acc : PMAcc)
    (lv : ℚ × ℚ) (h : effectiveLimitPx c side lv.1 ∈ live) :
    handleLevel c lot minSz live ladder paused nowTs ttl repostMax side acc lv =
      { acc with ms := aerase acc.ms (effectiveLimitPx c side lv.1) } := by
  simp [handleLevel, h]

/-- A missing level on a paused side: the scan skips it entirely (before
the missing-timer bookkeeping). -/
theorem handleLevel_paused (c : MkCfg) (lot minSz : ℚ) (live ladder : List ℚ)
    (nowTs ttl : ℚ) (repostMax : ℕ) (side : Side) (acc : PMAcc) (lv : ℚ × ℚ)
    (h : effectiveLimitPx c side lv.1 ∉ live) :
    handleLevel c lot minSz live ladder true nowTs ttl repostMax side acc lv = acc := by
  simp [handleLevel, h]

/-- The scan of one level either keeps the orders or appends one order of
its own side. -/
theorem handleLevel_orders (c : MkCfg) (lot minSz : ℚ) (live ladder : List ℚ)
    (paused : Bool) (nowTs ttl : ℚ) (repostMax : ℕ) (side : Side) (acc : PMAcc)
    (lv : ℚ × ℚ) :
    (handleLevel c lot minSz live ladder paused nowTs ttl repostMax side acc lv).orders
      = acc.orders ∨
    ∃ o : OrderIntent, o.side = side ∧
      (handleLevel c lot minSz live ladder paused nowTs ttl repostMax side acc lv).orders
        = acc.orders ++ [o] := by
  unfold handleLevel
  rcases hpo : postOne c lot minSz side lv.1 lv.2 with _ | o
  · repeat' split_ifs <;> simp_all
  · have hos := postOne_side c lot minSz side lv.1 lv.2 o hpo
    repeat' split_ifs <;> simp_all

/-- The scan of one level never touches missing-map keys other than its
own effective price. -/
theorem handleLevel_ms_other (c : MkCfg) (lot minSz : ℚ) (live ladder : List ℚ)
    (paused : Bool) (nowTs ttl : ℚ) (repostMax : ℕ) (side : Side) (acc : PMAcc)
    (lv : ℚ × ℚ) (k : ℚ) (h : effectiveLimitPx c side lv.1 ≠ k) :
    alookup (handleLevel c lot minSz live ladder paused nowTs ttl repostMax side
        acc lv).ms k = alookup acc.ms k := by
  have he : alookup (aerase acc.ms (effectiveLimitPx c side lv.1)) k = alookup acc.ms k := by
    rw [alookup_aerase, if_neg (fun hc => h hc.symm)]
  have hr : alookup (recordFirstMissing acc.ms (effectiveLimitPx c side lv.1) nowTs).1 k
      = alookup acc.ms k := by
    unfold recordFirstMissing
    rcases hl : alookup acc.ms (effectiveLimitPx c side lv.1) with _ | t
    · dsimp only
      simp only [alookup_aset]
      rw [if_neg (fun hc => h hc.symm)]
    · dsimp only
      split_ifs
      · simp only [alookup_aset]
        rw [if_neg (fun hc => h hc.symm)]
      · rfl
  unfold handleLevel
  rcases hpo : postOne c lot minSz side lv.1 lv.2 with _ | o <;>
    repeat' split_ifs <;> simp_all

/-- The scan of one level whose effective price is live erases exactly
that key from the missing map. -/
theorem handleLevel_ms_live_self (c : MkCfg) (lot minSz : ℚ) (live ladder : List ℚ)
    (paused : Bool) (nowTs ttl : ℚ) (repostMax : ℕ) (side : Side) (acc : PMAcc)
    (lv : ℚ × ℚ) (h : effectiveLimitPx c side lv.1 ∈ live) :
    alookup (handleLevel c lot minSz live ladder paused nowTs ttl repostMax side
        acc lv).ms (effectiveLimitPx c side lv.1) = none := by
  rw [handleLevel_live c lot minSz live ladder paused nowTs ttl repostMax side acc lv h]
  show alookup (aerase acc.ms _) _ = none
  rw [alookup_aerase, if_pos rfl]

/-- The scan of one level never touches repost-count keys other than its
own effective price. -/
theorem handleLevel_rc_other (c : MkCfg) (lot minSz : ℚ) (live ladder : List ℚ)
    (paused : Bool) (nowTs ttl : ℚ) (repostMax : ℕ) (side : Side) (acc : PMAcc)
    (lv : ℚ × ℚ) (k : ℚ) (h : effectiveLimitPx c side lv.1 ≠ k) :
    alookup (handleLevel c lot minSz live ladder paused nowTs ttl repostMax side
        acc lv).rc k = alookup acc.rc k := by
  have hw : alookup (windowOkAndInc acc.rc (effectiveLimitPx c side lv.1) nowTs ttl
      repostMax).1 k = alookup acc.rc k := by
    rcases windowOkAndInc_result acc.rc (effectiveLimitPx c side lv.1) nowTs ttl repostMax
      with hr | ⟨w2, c2, _, hr⟩
    · rw [hr]
    · rw [hr, alookup_aset, if_neg (fun hc => h hc.symm)]
  unfold handleLevel
  rcases hpo : postOne c lot minSz side lv.1 lv.2 with _ | o <;>
    repeat' split_ifs <;> simp_all

theorem recordFirstMissing_lookup_self (ms : List (ℚ × ℚ)) (k nowTs : ℚ) :
    alookup (recordFirstMissing ms k nowTs).1 k = some ((recordFirstMissing ms k nowTs).2) := by
  unfold recordFirstMissing
  rcases hl : alookup ms k with _ | t
  · dsimp only
    rw [alookup_aset, if_pos rfl]
  · dsimp only
    split_ifs
    · rw [alookup_aset, if_pos rfl]
    · exact hl

theorem recordFirstMissing_fresh (ms : List (ℚ × ℚ)) (k nowTs ttl : ℚ)
    (h : ∀ t, alookup ms k = some t → nowTs - t < ttl) (httl : 0 < ttl) :
    nowTs - (recordFirstMissing ms k nowTs).2 < ttl := by
  unfold recordFirstMissing
  rcases hl : alookup ms k with _ | t
  · simpa using httl
  · dsimp only
    split_ifs
    · simpa using httl
    · exact h t hl

theorem windowOkAndInc_fresh (rc : List (ℚ × (ℚ × ℕ))) (p nowTs ttl : ℚ)
    (repostMax : ℕ) (h : alookup rc p = none) (hm : 0 < repostMax) :
    windowOkAndInc rc p nowTs ttl repostMax = (aset rc p (nowTs, 1), true) := by
  simp only [windowOkAndInc, h, Option.getD_none, ite_self]
  rw [if_neg (show ¬ repostMax ≤ (((nowTs, 0) : ℚ × ℕ)).2 from by
    simpa using Nat.pos_iff_ne_zero.mp hm)]

theorem align_size_pos (sz lot minSz : ℚ) (hlot : 0 < lot) (hmin : 0 < minSz) :
    0 < align_size sz lot minSz := by
  unfold align_size
  have h2 : 0 < (if sz < minSz then minSz else sz) := by
    split_ifs with h
    · exact hmin
    · exact lt_of_lt_of_le hmin (not_lt.mp h)
  have hq : 0 < (if sz < minSz then minSz else sz) / lot := div_pos h2 hlot
  have hc : 0 < decRoundUp ((if sz < minSz then minSz else sz) / lot) := by
    unfold decRoundUp
    rw [if_pos hq.le]
    exact Int.ceil_pos.mpr hq
  exact mul_pos (by exact_mod_cast hc) hlot

/-- A missing level on an unpaused side, with both ladder neighbors live
and the missing time still under the TTL: the scan only records the
first-missing timestamp. -/
theorem handleLevel_skip (c : MkCfg) (lot minSz : ℚ) (live ladder : List ℚ)
    (nowTs ttl : ℚ) (repostMax : ℕ) (side : Side) (acc : PMAcc) (lv : ℚ × ℚ)
    (hnl : effectiveLimitPx c side lv.1 ∉ live)
    (hnb : neighborsMissing ladder live (effectiveLimitPx c side lv.1) = false)
    (hms : ∀ t, alookup acc.ms (effectiveLimitPx c side lv.1) = some t → nowTs - t < ttl)
    (httl : 0 < ttl) :
    handleLevel c lot minSz live ladder false nowTs ttl repostMax side acc lv =
      { acc with
        ms := (recordFirstMissing acc.ms (effectiveLimitPx c side lv.1) nowTs).1 } := by
  have hlt := recordFirstMissing_fresh acc.ms (effectiveLimitPx c side lv.1) nowTs ttl
    hms httl
  simp [handleLevel, hnl, hnb, not_le.mpr hlt]

/-- A missing level on an unpaused side with a missing ladder neighbor and
a fresh repost window: the scan posts the level's order. -/
theorem handleLevel_post (c : MkCfg) (lot minSz : ℚ) (live ladder : List ℚ)
    (nowTs ttl : ℚ) (repostMax : ℕ) (side : Side) (acc : PMAcc) (lv : ℚ × ℚ)
    (hnl : effectiveLimitPx c side lv.1 ∉ live)
    (hnb : neighborsMissing ladder live (effectiveLimitPx c side lv.1) = true)
    (hrc : alookup acc.rc (effectiveLimitPx c side lv.1) = none)
    (hm : 0 < repostMax) (hlot : 0 < lot) (hmin : 0 < minSz) :
    (handleLevel c lot minSz live ladder false nowTs ttl repostMax side acc lv).orders =
      acc.orders ++
        [{ side := side, posSide := posSideFromSide side
         , px := some (accountOrderPx c side (effectiveLimitPx c side lv.1))
         , sz := align_size lv.2 lot minSz, reduceOnly := false, tag := "GRID" }] := by
  have hw := windowOkAndInc_fresh acc.rc (effectiveLimitPx c side lv.1) nowTs ttl
    repostMax hrc hm
  have hpo : postOne c lot minSz side lv.1 lv.2 =
      some { side := side, posSide := posSideFromSide side
           , px := some (accountOrderPx c side (effectiveLimitPx c side lv.1))
           , sz := align_size lv.2 lot minSz, reduceOnly := false, tag := "GRID" } := by
    simp only [postOne]
    rw [if_neg (not_le.mpr (align_size_pos lv.2 lot minSz hlot hmin))]
  simp [handleLevel, hnl, hnb, hw, hpo]

/-! ### Fold lemmas for the per-side scan -/

theorem scanSide_orders_mono (c : MkCfg) (lot minSz : ℚ) (live ladder : List ℚ)
    (paused : Bool) (nowTs ttl : ℚ) (repostMax : ℕ) (side : Side)
    (levels : List (ℚ × ℚ)) :
    ∀ (acc : PMAcc) (o : OrderIntent), o ∈ acc.orders →
    o ∈ (scanSide c lot minSz live ladder paused nowTs ttl repostMax side acc
        levels).orders := by
  induction levels with
  | nil => exact fun acc o h => h
  | cons lv rest ih =>
    intro acc o h
    show o ∈ (scanSide c lot minSz live ladder paused nowTs ttl repostMax side
        (handleLevel c lot minSz live ladder paused nowTs ttl repostMax side acc lv)
        rest).orders
    apply ih
    rcases handleLevel_orders c lot minSz live ladder paused nowTs ttl repostMax side
        acc lv with h2 | ⟨o2, _, h2⟩
    · rw [h2]
      exact h
    · rw [h2]
      exact List.mem_append_left _ h

theorem scanSide_orders_side (c : MkCfg) (lot minSz : ℚ) (live ladder : List ℚ)
    (paused : Bool) (nowTs ttl : ℚ) (repostMax : ℕ) (side : Side)
    (levels : List (ℚ × ℚ)) :
    ∀ (acc : PMAcc) (o : OrderIntent),
    o ∈ (scanSide c lot minSz live ladder paused nowTs ttl repostMax side acc
        levels).orders →
    o ∈ acc.orders ∨ o.side = side := by
  induction levels with
  | nil => exact fun acc o h => Or.inl h
  | cons lv rest ih =>
    intro acc o h
    rcases ih _ o h with h2 | h2
    · rcases handleLevel_orders c lot minSz live ladder paused nowTs ttl repostMax side
          acc lv with h3 | ⟨o2, ho2, h3⟩
      · rw [h3] at h2
        exact Or.inl h2
      · rw [h3] at h2
        rcases List.mem_append.mp h2 with h4 | h4
        · exact Or.inl h4
        · right
          rw [List.mem_singleton.mp h4]
          exact ho2
    · exact Or.inr h2

/-- A scan of a paused side adds no orders, leaves the repost counters
unchanged, and only erases missing-map entries. -/
theorem scanSide_paused (c : MkCfg) (lot minSz : ℚ) (live ladder : List ℚ)
    (nowTs ttl : ℚ) (repostMax : ℕ) (side : Side) (levels : List (ℚ × ℚ)) :
    ∀ (acc : PMAcc),
    (scanSide c lot minSz live ladder true nowTs ttl repostMax side acc levels).orders
      = acc.orders ∧
    (scanSide c lot minSz live ladder true nowTs ttl repostMax side acc levels).rc
      = acc.rc ∧
    (∀ k, alookup acc.ms k = none →
      alookup (scanSide c lot minSz live ladder true nowTs ttl repostMax side acc
        levels).ms k = none) := by
  induction levels with
  | nil => exact fun acc => ⟨rfl, rfl, fun k h => h⟩
  | cons lv rest ih =>
    intro acc
    by_cases hl : effectiveLimitPx c side lv.1 ∈ live
    · have he := handleLevel_live c lot minSz live ladder true nowTs ttl repostMax side
        acc lv hl
      have := ih { acc with ms := aerase acc.ms (effectiveLimitPx c side lv.1) }
      refine ⟨?_, ?_, ?_⟩
      · show (scanSide c lot minSz live ladder true nowTs ttl repostMax side
            (handleLevel c lot minSz live ladder true nowTs ttl repostMax side acc lv)
            rest).orders = acc.orders
        rw [he]
        exact this.1
      · show (scanSide c lot minSz live ladder true nowTs ttl repostMax side
            (handleLevel c lot minSz live ladder true nowTs ttl repostMax side acc lv)
            rest).rc = acc.rc
        rw [he]
        exact this.2.1
      · intro k hk
        show alookup (scanSide c lot minSz live ladder true nowTs ttl repostMax side
            (handleLevel c lot minSz live ladder true nowTs ttl repostMax side acc lv)
            rest).ms k = none
        rw [he]
        apply this.2.2
        show alookup (aerase acc.ms _) k = none
        rw [alookup_aerase]
        split_ifs
        · rfl
        · exact hk
    · have he := handleLevel_paused c lot minSz live ladder nowTs ttl repostMax side
        acc lv hl
      have := ih acc
      refine ⟨?_, ?_, ?_⟩
      · show (scanSide c lot minSz live ladder true nowTs ttl repostMax side
            (handleLevel c lot minSz live ladder true nowTs ttl repostMax side acc lv)
            rest).orders = acc.orders
        rw [he]
        exact this.1
      · show (scanSide c lot minSz live ladder true nowTs ttl repostMax side
            (handleLevel c lot minSz live ladder true nowTs ttl repostMax side acc lv)
            rest).rc = acc.rc
        rw [he]
        exact this.2.1
      · intro k hk
        show alookup (scanSide c lot minSz live ladder true nowTs ttl repostMax side
            (handleLevel c lot minSz live ladder true nowTs ttl repostMax side acc lv)
            rest).ms k = none
        rw [he]
        exact this.2.2 k hk

/-- A scan preserves the absence of a missing-map key that is live or is
not the effective price of any scanned level. -/
theorem scanSide_ms_none (c : MkCfg) (lot minSz : ℚ) (live ladder : List ℚ)
    (paused : Bool) (nowTs ttl : ℚ) (repostMax : ℕ) (side : Side)
    (levels : List (ℚ × ℚ)) :
    ∀ (acc : PMAcc) (k : ℚ), alookup acc.ms k = none →
    (k ∈ live ∨ ∀ lvl ∈ levels, effectiveLimitPx c side lvl.1 ≠ k) →
    alookup (scanSide c lot minSz live ladder paused nowTs ttl repostMax side acc
        levels).ms k = none := by
  induction levels with
  | nil => exact fun acc k h _ => h
  | cons lv rest ih =>
    intro acc k hk hd
    show alookup (scanSide c lot minSz live ladder paused nowTs ttl repostMax side
        (handleLevel c lot minSz live ladder paused nowTs ttl repostMax side acc lv)
        rest).ms k = none
    by_cases hc : effectiveLimitPx c side lv.1 = k
    · have hkl : k ∈ live := by
        rcases hd with h | h
        · exact h
        · exact absurd hc (h lv (List.mem_cons_self _ _))
      apply ih
      · rw [← hc]
        exact handleLevel_ms_live_self c lot minSz live ladder paused nowTs ttl
          repostMax side acc lv (hc ▸ hkl)
      · exact Or.inl hkl
    · apply ih
      · rw [handleLevel_ms_other c lot minSz live ladder paused nowTs ttl repostMax side
          acc lv k hc]
        exact hk
      · rcases hd with h | h
        · exact Or.inl h
        · exact Or.inr fun lvl hm => h lvl (List.mem_cons_of_mem _ hm)

/-- A scan clears the missing-map entry of a live key that is the
effective price of one of the scanned levels. -/
theorem scanSide_ms_clear (c : MkCfg) (lot minSz : ℚ) (live ladder : List ℚ)
    (paused : Bool) (nowTs ttl : ℚ) (repostMax : ℕ) (side : Side)
    (levels : List (ℚ × ℚ)) :
    ∀ (acc : PMAcc) (k : ℚ), k ∈ live →
    ((∃ lvl ∈ levels, effectiveLimitPx c side lvl.1 = k) ∨ alookup acc.ms k = none) →
    alookup (scanSide c lot minSz live ladder paused nowTs ttl repostMax side acc
        levels).ms k = none := by
  induction levels with
  | nil =>
    intro acc k _ hd
    rcases hd with ⟨lvl, hm, _⟩ | h
    · simp at hm
    · exact h
  | cons lv rest ih =>
    intro acc k hkl hd
    show alookup (scanSide c lot minSz live ladder paused nowTs ttl repostMax side
        (handleLevel c lot minSz live ladder paused nowTs ttl repostMax side acc lv)
        rest).ms k = none
    by_cases hc : effectiveLimitPx c side lv.1 = k
    · apply ih
      · exact hkl
      · right
        rw [← hc]
        exact handleLevel_ms_live_self c lot minSz live ladder paused nowTs ttl
          repostMax side acc lv (hc ▸ hkl)
    · apply ih
      · exact hkl
      · rcases hd with ⟨lvl, hm, hl⟩ | h
        · rcases List.mem_cons.mp hm with h2 | h2
          · exact absurd (h2 ▸ hl) hc
          · exact Or.inl ⟨lvl, h2, hl⟩
        · right
          rw [handleLevel_ms_other c lot minSz live ladder paused nowTs ttl repostMax
            side acc lv k hc]
          exact h

/-! ### Field bookkeeping across the pre-scan steps of `place_missing` -/

theorem updateFlatEdges_fields (st : GridState) (p : Option (ℚ × ℚ)) (t : ℚ) :
    (updateFlatEdges st p t).buyLv = st.buyLv ∧
    (updateFlatEdges st p t).sellLv = st.sellLv ∧
    (updateFlatEdges st p t).missingSince = st.missingSince ∧
    (updateFlatEdges st p t).repostCount = st.repostCount ∧
    (updateFlatEdges st p t).pauseLong = st.pauseLong ∧
    (updateFlatEdges st p t).pauseShort = st.pauseShort ∧
    (updateFlatEdges st p t).ttlSec = st.ttlSec ∧
    (updateFlatEdges st p t).repostMax = st.repostMax := by
  cases p <;> exact ⟨rfl, rfl, rfl, rfl, rfl, rfl, rfl, rfl⟩

theorem fullLadder_congr (c : MkCfg) (st st2 : GridState)
    (hb : st2.buyLv = st.buyLv) (hs : st2.sellLv = st.sellLv) :
    fullLadder c st2 = fullLadder c st := by
  simp only [fullLadder, hb, hs]

theorem farawayReset_ms_some (st : GridState) (nowPx : ℚ) (p : ℚ) (t : ℚ)
    (h : alookup (farawayReset st nowPx).missingSince p = some t) :
    alookup st.missingSince p = some t := by
  rcases alookup_aeraseAll
      (st.repostCount.filterMap
        (fun e => if farCond st.gridStep st.farSteps nowPx e.1 then some e.1 else none))
      st.missingSince p with h2 | h2
  · rw [show alookup (farawayReset st nowPx).missingSince p = _ from h2] at h
    exact absurd h (by simp)
  · rw [show alookup (farawayReset st nowPx).missingSince p = _ from h2] at h
    exact h

theorem farawayReset_rc_none (st : GridState) (nowPx : ℚ) (p : ℚ)
    (h : alookup st.repostCount p = none) :
    alookup (farawayReset st nowPx).repostCount p = none :=
  alookup_aeraseAll_of_none _ _ _ h

/-- `place_missing` with no recent flat edge on either side: the rearm
branches are skipped and the pass is the far-away reset followed by the
two per-side scans. -/
theorem placeMissing_no_rearm (c : MkCfg) (lot minSz : ℚ) (st0 : GridState)
    (nowTs nowPx : ℚ) (live : List ℚ) (posInput : Option (ℚ × ℚ))
    (hL : (updateFlatEdges st0 posInput nowTs).lastFlatTsLong = 0)
    (hS : (updateFlatEdges st0 posInput nowTs).lastFlatTsShort = 0) :
    placeMissing c lot minSz st0 nowTs nowPx live posInput =
      (let st2 := farawayReset (updateFlatEdges st0 posInput nowTs) nowPx
       let ladder := fullLadder c st2
       let acc1 := scanSide c lot minSz live ladder st2.pauseLong nowTs st2.ttlSec
           st2.repostMax Side.buy
           { ms := st2.missingSince, rc := st2.repostCount, orders := [] }
           (sortByFst st2.buyLv)
       let acc2 := scanSide c lot minSz live ladder st2.pauseShort nowTs st2.ttlSec
           st2.repostMax Side.sell acc1 (sortByFst st2.sellLv)
       ({ st2 with missingSince := acc2.ms, repostCount := acc2.rc }, acc2.orders)) := by
  simp only [placeMissing]
  rw [if_neg (fun hc => hc.1 hS), if_neg (fun hc => hc.1 hL)]
  rfl

/-- On a side where every level is live except possibly ones at effective
price `p`, with both ladder neighbors of `p` live and the missing time of
`p` still under the TTL, the scan posts nothing, keeps the repost
counters, and keeps the under-TTL property of `p`'s missing timer. -/
theorem scanSide_no_post (c : MkCfg) (lot minSz : ℚ) (live ladder : List ℚ)
    (nowTs ttl : ℚ) (repostMax : ℕ) (side : Side) (p : ℚ)
    (hnb : neighborsMissing ladder live p = false) (httl : 0 < ttl)
    (levels : List (ℚ × ℚ)) :
    ∀ (acc : PMAcc),
    (∀ lvl ∈ levels,
      effectiveLimitPx c side lvl.1 ∈ live ∨ effectiveLimitPx c side lvl.1 = p) →
    (∀ t, alookup acc.ms p = some t → nowTs - t < ttl) →
    (scanSide c lot minSz live ladder false nowTs ttl repostMax side acc levels).orders
        = acc.orders ∧
    (scanSide c lot minSz live ladder false nowTs ttl repostMax side acc levels).rc
        = acc.rc ∧
    (∀ t, alookup (scanSide c lot minSz live ladder false nowTs ttl repostMax side acc
        levels).ms p = some t → nowTs - t < ttl) := by
  induction levels with
  | nil => exact fun acc _ hm => ⟨rfl, rfl, hm⟩
  | cons lv rest ih =>
    intro acc hlv hm
    have hrest : ∀ lvl ∈ rest,
        effectiveLimitPx c side lvl.1 ∈ live ∨ effectiveLimitPx c side lvl.1 = p :=
      fun lvl h => hlv lvl (List.mem_cons_of_mem _ h)
    have hstep : scanSide c lot minSz live ladder false nowTs ttl repostMax side acc
        (lv :: rest) = scanSide c lot minSz live ladder false nowTs ttl repostMax side
        (handleLevel c lot minSz live ladder false nowTs ttl repostMax side acc lv)
        rest := rfl
    by_cases hk : effectiveLimitPx c side lv.1 ∈ live
    · have he := handleLevel_live c lot minSz live ladder false nowTs ttl repostMax side
        acc lv hk
      rw [hstep, he]
      have hm' : ∀ t, alookup (aerase acc.ms (effectiveLimitPx c side lv.1)) p = some t →
          nowTs - t < ttl := by
        intro t ht
        rw [alookup_aerase] at ht
        split_ifs at ht
        exact hm t ht
      exact ih { acc with ms := aerase acc.ms (effectiveLimitPx c side lv.1) } hrest hm'
    · have hp2 : effectiveLimitPx c side lv.1 = p := by
        rcases hlv lv (List.mem_cons_self _ _) with h | h
        · exact absurd h hk
        · exact h
      have hms2 : ∀ t, alookup acc.ms (effectiveLimitPx c side lv.1) = some t →
          nowTs - t < ttl := by
        rw [hp2]
        exact hm
      have he := handleLevel_skip c lot minSz live ladder nowTs ttl repostMax side acc lv
        hk (hp2 ▸ hnb) hms2 httl
      rw [hstep, he]
      have hfr := recordFirstMissing_fresh acc.ms (effectiveLimitPx c side lv.1) nowTs ttl
        hms2 httl
      have hself := recordFirstMissing_lookup_self acc.ms (effectiveLimitPx c side lv.1)
        nowTs
      have hm' : ∀ t,
          alookup (recordFirstMissing acc.ms (effectiveLimitPx c side lv.1) nowTs).1 p
            = some t → nowTs - t < ttl := by
        rw [← hp2]
        intro t ht
        rw [hself] at ht
        injection ht with ht
        rw [← ht]
        exact hfr
      exact ih { acc with
        ms := (recordFirstMissing acc.ms (effectiveLimitPx c side lv.1) nowTs).1 }
        hrest hm'

/-- On a side where every level is live except the one level `lv0`, whose
ladder neighbor is missing and whose repost window has no entry, the scan
posts `lv0`'s order. -/
theorem scanSide_posts (c : MkCfg) (lot minSz : ℚ) (live ladder : List ℚ)
    (nowTs ttl : ℚ) (repostMax : ℕ) (side : Side) (lv0 : ℚ × ℚ)
    (hnl : effectiveLimitPx c side lv0.1 ∉ live)
    (hnb : neighborsMissing ladder live (effectiveLimitPx c side lv0.1) = true)
    (hmax : 0 < repostMax) (hlot : 0 < lot) (hmin : 0 < minSz)
    (levels : List (ℚ × ℚ)) :
    ∀ (acc : PMAcc), lv0 ∈ levels →
    (∀ lvl ∈ levels, effectiveLimitPx c side lvl.1 ∈ live ∨ lvl = lv0) →
    alookup acc.rc (effectiveLimitPx c side lv0.1) = none →
    { side := side, posSide := posSideFromSide side
    , px := some (accountOrderPx c side (effectiveLimitPx c side lv0.1))
    , sz := align_size lv0.2 lot minSz, reduceOnly := false, tag := "GRID" } ∈
      (scanSide c lot minSz live ladder false nowTs ttl repostMax side acc
        levels).orders := by
  induction levels with
  | nil =>
    intro acc h0
    simp at h0
  | cons lv rest ih =>
    intro acc h0 hall hrc
    by_cases heq : lv = lv0
    · subst heq
      have he := handleLevel_post c lot minSz live ladder nowTs ttl repostMax side acc lv
        hnl hnb hrc hmax hlot hmin
      show _ ∈ (scanSide c lot minSz live ladder false nowTs ttl repostMax side
          (handleLevel c lot minSz live ladder false nowTs ttl repostMax side acc lv)
          rest).orders
      apply scanSide_orders_mono
      rw [he]
      exact List.mem_append_right _ (List.mem_singleton.mpr rfl)
    · have hlive : effectiveLimitPx c side lv.1 ∈ live := by
        rcases hall lv (List.mem_cons_self _ _) with h | h
        · exact h
        · exact absurd h heq
      have he := handleLevel_live c lot minSz live ladder false nowTs ttl repostMax side
        acc lv hlive
      have h0' : lv0 ∈ rest := by
        rcases List.mem_cons.mp h0 with h | h
        · exact absurd h.symm heq
        · exact h
      show _ ∈ (scanSide c lot minSz live ladder false nowTs ttl repostMax side
          (handleLevel c lot minSz live ladder false nowTs ttl repostMax side acc lv)
          rest).orders
      rw [he]
      exact ih { acc with ms := aerase acc.ms (effectiveLimitPx c side lv.1) } h0'
        (fun lvl hmem => hall lvl (List.mem_cons_of_mem _ hmem)) hrc

/-- C5 (counterexample). The claim states that while a side's pause flag
is set a `place_missing` pass still records `firstMissingAt` for each
newly missing level of that side. Concretely: long side paused, the buy
level's effective price 84.9 absent from the live set, the sell level
live at 115.1 — the pass records no missing timer for 84.9 (the pause
check sits before the timer bookkeeping) and submits nothing. -/
theorem paused_side_does_not_record_missing_timer :
    alookup (placeMissing cC (1/100) (1/100) stPausedLong 100 100 [1151/10]
        (some (0, 0))).1.missingSince (849/10) = none ∧
    (placeMissing cC (1/100) (1/100) stPausedLong 100 100 [1151/10]
        (some (0, 0))).2 = [] :=
  ⟨of_decide_eq_true (by with_unfolding_all rfl),
   of_decide_eq_true (by with_unfolding_all rfl)⟩

/-- C5 (amended). While the long side's pause flag is set, a
`place_missing` pass with no recent flat edge submits no buy orders and
still clears the missing timers of buy levels that are live again, but it
does not record `firstMissingAt` for newly missing levels of the paused
side: a key with no timer before the pass still has none afterwards
unless the unpaused sell side records it, so after the pause lifts the
TTL fallback measures from the first unpaused pass. -/
theorem paused_side_suppresses_orders_and_keeps_live_bookkeeping
    (c : MkCfg) (lot minSz : ℚ) (st0 : GridState) (nowTs nowPx : ℚ)
    (live : List ℚ) (posInput : Option (ℚ × ℚ))
    (hp : st0.pauseLong = true)
    (hL : (updateFlatEdges st0 posInput nowTs).lastFlatTsLong = 0)
    (hS : (updateFlatEdges st0 posInput nowTs).lastFlatTsShort = 0) :
    (∀ o ∈ (placeMissing c lot minSz st0 nowTs nowPx live posInput).2,
      o.side = Side.sell) ∧
    (∀ k ∈ live, (∃ lvl ∈ st0.buyLv, effectiveLimitPx c Side.buy lvl.1 = k) →
      alookup (placeMissing c lot minSz st0 nowTs nowPx live
        posInput).1.missingSince k = none) ∧
    (∀ k, alookup st0.missingSince k = none →
      (k ∈ live ∨ ∀ lvl ∈ st0.sellLv, effectiveLimitPx c Side.sell lvl.1 ≠ k) →
      alookup (placeMissing c lot minSz st0 nowTs nowPx live
        posInput).1.missingSince k = none) := by
  rw [placeMissing_no_rearm c lot minSz st0 nowTs nowPx live posInput hL hS]
  dsimp only
  have hb2 : (farawayReset (updateFlatEdges st0 posInput nowTs) nowPx).buyLv
      = st0.buyLv := by cases posInput <;> rfl
  have hs2 : (farawayReset (updateFlatEdges st0 posInput nowTs) nowPx).sellLv
      = st0.sellLv := by cases posInput <;> rfl
  have hpl2 : (farawayReset (updateFlatEdges st0 posInput nowTs) nowPx).pauseLong
      = true := by cases posInput <;> exact hp
  have hmsn : ∀ k, alookup st0.missingSince k = none →
      alookup (farawayReset (updateFlatEdges st0 posInput nowTs) nowPx).missingSince k
        = none := by
    intro k hk
    show alookup (aeraseAll (updateFlatEdges st0 posInput nowTs).missingSince _) k = none
    apply alookup_aeraseAll_of_none
    rwa [(updateFlatEdges_fields st0 posInput nowTs).2.2.1]
  set st2 : GridState := farawayReset (updateFlatEdges st0 posInput nowTs) nowPx
    with hst2
  rw [hpl2, hb2, hs2]
  have hpa := scanSide_paused c lot minSz live (fullLadder c st2) nowTs st2.ttlSec
    st2.repostMax Side.buy (sortByFst st0.buyLv)
    { ms := st2.missingSince, rc := st2.repostCount, orders := [] }
  refine ⟨?_, ?_, ?_⟩
  · intro o ho
    rcases scanSide_orders_side c lot minSz live (fullLadder c st2) st2.pauseShort nowTs
        st2.ttlSec st2.repostMax Side.sell (sortByFst st0.sellLv) _ o ho with h | h
    · rw [hpa.1] at h
      exact absurd h (List.not_mem_nil o)
    · exact h
  · intro k hk hex
    obtain ⟨lvl, hmem, hlv⟩ := hex
    have h1 := scanSide_ms_clear c lot minSz live (fullLadder c st2) true nowTs
      st2.ttlSec st2.repostMax Side.buy (sortByFst st0.buyLv)
      { ms := st2.missingSince, rc := st2.repostCount, orders := [] } k hk
      (Or.inl ⟨lvl, mem_sortByFst.mpr hmem, hlv⟩)
    exact scanSide_ms_none c lot minSz live (fullLadder c st2) st2.pauseShort nowTs
      st2.ttlSec st2.repostMax Side.sell (sortByFst st0.sellLv) _ k h1 (Or.inl hk)
  · intro k hk0 hd
    have h1 := hpa.2.2 k (hmsn k hk0)
    rcases hd with hkl | hns
    · exact scanSide_ms_none c lot minSz live (fullLadder c st2) st2.pauseShort nowTs
        st2.ttlSec st2.repostMax Side.sell (sortByFst st0.sellLv) _ k h1 (Or.inl hkl)
    · exact scanSide_ms_none c lot minSz live (fullLadder c st2) st2.pauseShort nowTs
        st2.ttlSec st2.repostMax Side.sell (sortByFst st0.sellLv) _ k h1
        (Or.inr (fun lvl hm => hns lvl (mem_sortByFst.mp hm)))

theorem paused_side_suppresses_orders_and_keeps_live_bookkeeping_witness :
    (∀ o ∈ (placeMissing cC (1/100) (1/100) stPausedLong 100 100 [1151/10]
        (some (0, 0))).2, o.side = Side.sell) ∧
    (∀ k ∈ ([1151/10] : List ℚ),
      (∃ lvl ∈ stPausedLong.buyLv, effectiveLimitPx cC Side.buy lvl.1 = k) →
      alookup (placeMissing cC (1/100) (1/100) stPausedLong 100 100 [1151/10]
        (some (0, 0))).1.missingSince k = none) ∧
    (∀ k, alookup stPausedLong.missingSince k = none →
      (k ∈ ([1151/10] : List ℚ) ∨
        ∀ lvl ∈ stPausedLong.sellLv, effectiveLimitPx cC Side.sell lvl.1 ≠ k) →
      alookup (placeMissing cC (1/100) (1/100) stPausedLong 100 100 [1151/10]
        (some (0, 0))).1.missingSince k = none) :=
  paused_side_suppresses_orders_and_keeps_live_bookkeeping cC (1/100) (1/100)
    stPausedLong 100 100 [1151/10] (some (0, 0)) rfl
    (of_decide_eq_true (by with_unfolding_all rfl))
    (of_decide_eq_true (by with_unfolding_all rfl))

/-- C6. The neighbor-or-TTL gate of `place_missing`. Part one: with no
recent flat edge, neither side paused, every level live except possibly
ones at effective price `p`, both ladder neighbors of `p` live, and `p`
missing for less than `ttl_sec` (by the recorded timer, if any), the pass
submits nothing. Part two: if instead a ladder neighbor of the single
missing buy level is also missing and its repost window is untouched, the
pass submits that level's order immediately. -/
theorem neighbor_or_ttl_gate :
    (∀ (c : MkCfg) (lot minSz : ℚ) (st0 : GridState) (nowTs nowPx : ℚ)
       (live : List ℚ) (posInput : Option (ℚ × ℚ)) (p : ℚ),
       st0.pauseLong = false → st0.pauseShort = false →
       (updateFlatEdges st0 posInput nowTs).lastFlatTsLong = 0 →
       (updateFlatEdges st0 posInput nowTs).lastFlatTsShort = 0 →
       0 < st0.ttlSec →
       neighborsMissing (fullLadder c st0) live p = false →
       (∀ lvl ∈ st0.buyLv, effectiveLimitPx c Side.buy lvl.1 ∈ live ∨
         effectiveLimitPx c Side.buy lvl.1 = p) →
       (∀ lvl ∈ st0.sellLv, effectiveLimitPx c Side.sell lvl.1 ∈ live ∨
         effectiveLimitPx c Side.sell lvl.1 = p) →
       (∀ t, alookup st0.missingSince p = some t → nowTs - t < st0.ttlSec) →
       (placeMissing c lot minSz st0 nowTs nowPx live posInput).2 = []) ∧
    (∀ (c : MkCfg) (lot minSz : ℚ) (st0 : GridState) (nowTs nowPx : ℚ)
       (live : List ℚ) (posInput : Option (ℚ × ℚ)) (lv0 : ℚ × ℚ),
       st0.pauseLong = false →
       (updateFlatEdges st0 posInput nowTs).lastFlatTsLong = 0 →
       (updateFlatEdges st0 posInput nowTs).lastFlatTsShort = 0 →
       0 < st0.repostMax → 0 < lot → 0 < minSz →
       lv0 ∈ st0.buyLv →
       (∀ lvl ∈ st0.buyLv, effectiveLimitPx c Side.buy lvl.1 ∈ live ∨ lvl = lv0) →
       effectiveLimitPx c Side.buy lv0.1 ∉ live →
       neighborsMissing (fullLadder c st0) live (effectiveLimitPx c Side.buy lv0.1)
         = true →
       alookup st0.repostCount (effectiveLimitPx c Side.buy lv0.1) = none →
       { side := Side.buy, posSide := PosSide.long
       , px := some (accountOrderPx c Side.buy (effectiveLimitPx c Side.buy lv0.1))
       , sz := align_size lv0.2 lot minSz, reduceOnly := false, tag := "GRID" } ∈
         (placeMissing c lot minSz st0 nowTs nowPx live posInput).2) := by
  constructor
  · intro c lot minSz st0 nowTs nowPx live posInput p hpl hps hL hS httl hnb hbuy hsell
      hms
    rw [placeMissing_no_rearm c lot minSz st0 nowTs nowPx live posInput hL hS]
    dsimp only
    have hb2 : (farawayReset (updateFlatEdges st0 posInput nowTs) nowPx).buyLv
        = st0.buyLv := by cases posInput <;> rfl
    have hs2 : (farawayReset (updateFlatEdges st0 posInput nowTs) nowPx).sellLv
        = st0.sellLv := by cases posInput <;> rfl
    have hpl2 : (farawayReset (updateFlatEdges st0 posInput nowTs) nowPx).pauseLong
        = false := by cases posInput <;> exact hpl
    have hps2 : (farawayReset (updateFlatEdges st0 posInput nowTs) nowPx).pauseShort
        = false := by cases posInput <;> exact hps
    have httl2 : (farawayReset (updateFlatEdges st0 posInput nowTs) nowPx).ttlSec
        = st0.ttlSec := by cases posInput <;> rfl
    have hmsi : ∀ t,
        alookup (farawayReset (updateFlatEdges st0 posInput nowTs) nowPx).missingSince p
          = some t → nowTs - t < st0.ttlSec := by
      intro t ht
      apply hms
      have h2 := farawayReset_ms_some (updateFlatEdges st0 posInput nowTs) nowPx p t ht
      rwa [(updateFlatEdges_fields st0 posInput nowTs).2.2.1] at h2
    set st2 : GridState := farawayReset (updateFlatEdges st0 posInput nowTs) nowPx
      with hst2
    have hlad : fullLadder c st2 = fullLadder c st0 := fullLadder_congr c st0 st2 hb2 hs2
    rw [hpl2, hps2, hb2, hs2, hlad, httl2]
    have h1 := scanSide_no_post c lot minSz live (fullLadder c st0) nowTs st0.ttlSec
      st2.repostMax Side.buy p hnb httl (sortByFst st0.buyLv)
      { ms := st2.missingSince, rc := st2.repostCount, orders := [] }
      (fun lvl hm => hbuy lvl (mem_sortByFst.mp hm)) hmsi
    have h2 := scanSide_no_post c lot minSz live (fullLadder c st0) nowTs st0.ttlSec
      st2.repostMax Side.sell p hnb httl (sortByFst st0.sellLv) _
      (fun lvl hm => hsell lvl (mem_sortByFst.mp hm)) h1.2.2
    exact h2.1.trans h1.1
  · intro c lot minSz st0 nowTs nowPx live posInput lv0 hpl hL hS hmax hlot hmin hmem
      hall hnl hnb hrc
    rw [placeMissing_no_rearm c lot minSz st0 nowTs nowPx live posInput hL hS]
    dsimp only
    have hb2 : (farawayReset (updateFlatEdges st0 posInput nowTs) nowPx).buyLv
        = st0.buyLv := by cases posInput <;> rfl
    have hs2 : (farawayReset (updateFlatEdges st0 posInput nowTs) nowPx).sellLv
        = st0.sellLv := by cases posInput <;> rfl
    have hpl2 : (farawayReset (updateFlatEdges st0 posInput nowTs) nowPx).pauseLong
        = false := by cases posInput <;> exact hpl
    have hmax2 : 0 < (farawayReset (updateFlatEdges st0 posInput nowTs) nowPx).repostMax
        := by cases posInput <;> exact hmax
    have hrc2 : alookup
        (farawayReset (updateFlatEdges st0 posInput nowTs) nowPx).repostCount
        (effectiveLimitPx c Side.buy lv0.1) = none := by
      apply farawayReset_rc_none
      rwa [(updateFlatEdges_fields st0 posInput nowTs).2.2.2.1]
    set st2 : GridState := farawayReset (updateFlatEdges st0 posInput nowTs) nowPx
      with hst2
    have hlad : fullLadder c st2 = fullLadder c st0 := fullLadder_congr c st0 st2 hb2 hs2
    rw [hpl2, hb2, hs2, hlad]
    apply scanSide_orders_mono
    exact scanSide_posts c lot minSz live (fullLadder c st0) nowTs st2.ttlSec
      st2.repostMax Side.buy lv0 hnl hnb hmax2 hlot hmin (sortByFst st0.buyLv)
      { ms := st2.missingSince, rc := st2.repostCount, orders := [] }
      (mem_sortByFst.mpr hmem) (fun lvl hm => hall lvl (mem_sortByFst.mp hm)) hrc2

theorem neighbor_or_ttl_gate_witness :
    (placeMissing cC (1/100) (1/100) stBase 100 100 [1151/10] none).2 = [] ∧
    { side := Side.buy, posSide := PosSide.long
    , px := some (accountOrderPx cC Side.buy (effectiveLimitPx cC Side.buy 85))
    , sz := align_size (1/100) (1/100) (1/100), reduceOnly := false, tag := "GRID" } ∈
      (placeMissing cC (1/100) (1/100) stBase 100 100 [] none).2 :=
  ⟨neighbor_or_ttl_gate.1 cC (1/100) (1/100) stBase 100 100 [1151/10] none (849/10)
    rfl rfl rfl rfl
    (of_decide_eq_true (by with_unfolding_all rfl))
    (of_decide_eq_true (by with_unfolding_all rfl))
    (of_decide_eq_true (by with_unfolding_all rfl))
    (of_decide_eq_true (by with_unfolding_all rfl))
    (fun t ht => absurd ht (of_decide_eq_true (by with_unfolding_all rfl))),
   neighbor_or_ttl_gate.2 cC (1/100) (1/100) stBase 100 100 [] none (85, 1/100)
    rfl rfl rfl
    (of_decide_eq_true (by with_unfolding_all rfl))
    (of_decide_eq_true (by with_unfolding_all rfl))
    (of_decide_eq_true (by with_unfolding_all rfl))
    (of_decide_eq_true (by with_unfolding_all rfl))
    (of_decide_eq_true (by with_unfolding_all rfl))
    (of_decide_eq_true (by with_unfolding_all rfl))
    (of_decide_eq_true (by with_unfolding_all rfl))
    (of_decide_eq_true (by with_unfolding_all rfl))⟩

end OKX
